import Mathlib

/-!
The type-erased value handle `v3::Vehicle` of `slide_code.cc`.

A shallow embedding of the final erasure variant (`namespace v3`) together with
the `Boat` payload type used by `generic_test`.

* The free store is an explicit `Heap`: a list of cells addressed from `1`
  (`0` is `nullptr`), with a budget of allocations after which `new` throws.
* A handle is the pair `(body_, vptr_)`.  The two function-local static tables
  returned by `null_vtable()` and `vtable_for_type<T>()` are singletons, so a
  table pointer is represented by the tag of the table it points to.
* Handles are objects with identity: a `State` maps handle names to handles,
  and every member function works on names, so that aliasing (`h = h`) is the
  same code path as in the source.
* Every operation that can throw or has undefined behaviour in C++ returns in
  `Except Fault`.
* For what a throw leaves behind, copy assignment is embedded a second time,
  one member access at a time, as an `Exec`: a function from the state to the
  state in which control leaves together with the result or the exception.
  `Exec.copy_assign_agrees` relates the two embeddings.
-/

/-- The argument of the domain operation: `struct coordinates { int x; }`. -/
structure coordinates where
  x : Int
deriving DecidableEq, Repr

/-- The sample payload type, `struct Boat { ...; int pos = 0; }`.  The field is
only ever copied and compared, never computed with, so no wrap-around arises. -/
structure Boat where
  pos : Int := 0
deriving DecidableEq, Repr

/-- Domain operation of a boat: `void move(const coordinates& c) { pos = c.x; }`. -/
def Boat.move (b : Boat) (c : coordinates) : Boat :=
  { b with pos := c.x }

/-- Equality of boats: `operator==(const Boat& x, const Boat& y)` is `x.pos == y.pos`. -/
def Boat.eq (x y : Boat) : Bool :=
  x.pos == y.pos

/-- What the templates of `v3::Vehicle` use of a type `T`: its copy constructor
(`new T{*p}` in `clone`), its move constructor (`new T(std::move(x))` in the
converting constructor), `T::move(const coordinates&)` and `operator==`. -/
structure Storable (T : Type) where
  copy : T → T
  mv : T → T
  move : T → coordinates → T
  eq : T → T → Bool

/-- The operations of `Boat`: both constructors are the implicit member-wise ones. -/
def Boat.storable : Storable Boat where
  copy := fun b => b
  mv := fun b => b
  move := Boat.move
  eq := Boat.eq

/-- The ways an operation can go wrong: dereferencing `nullptr`, using a freed
address, reinterpreting a payload as another type, and `std::bad_alloc`. -/
inductive Fault where
  | null_deref
  | dangling
  | bad_cast
  | bad_alloc
deriving DecidableEq, Repr

/-- A heap object: a value together with its dynamic type. -/
structure Obj {U : Type} (El : U → Type) where
  ty : U
  val : El ty

/-- Reading an object as a `T`: defined only when `T` is its dynamic type. -/
def Obj.cast {U : Type} [DecidableEq U] {El : U → Type} (o : Obj El) (T : U) : Option (El T) :=
  if h : o.ty = T then some (h ▸ o.val) else none

/-- The free store.  Cell `i` of `cells` is the object at address `i + 1`, or
`none` once it has been deleted; `avail` is the number of allocations that
still succeed before `new` throws. -/
structure Heap {U : Type} (El : U → Type) where
  cells : List (Option (Obj El))
  avail : Nat

namespace Heap

variable {U : Type} [DecidableEq U] {El : U → Type}

/-- The live object at address `p`, if any; nothing lives at `nullptr`. -/
def lookup (h : Heap El) (p : Nat) : Option (Obj El) :=
  match p with
  | 0 => none
  | q + 1 =>
    match h.cells[q]? with
    | some (some o) => some o
    | _ => none

/-- The expression `new T(v)`: a fresh non-null address holding the object, or
`std::bad_alloc` when the budget is used up. -/
def new (h : Heap El) (o : Obj El) : Except Fault (Heap El × Nat) :=
  if h.avail = 0 then .error .bad_alloc
  else .ok ({ cells := h.cells ++ [some o], avail := h.avail - 1 }, h.cells.length + 1)

/-- The expression `*static_cast<T*>(p)` read as an rvalue. -/
def deref (h : Heap El) (T : U) (p : Nat) : Except Fault (El T) :=
  if p = 0 then .error .null_deref
  else
    match h.lookup p with
    | none => .error .dangling
    | some o =>
      match o.cast T with
      | some v => .ok v
      | none => .error .bad_cast

/-- Overwriting the object at address `p` (nothing is stored through `nullptr`). -/
def store (h : Heap El) (p : Nat) (o : Obj El) : Heap El :=
  match p with
  | 0 => h
  | q + 1 => { h with cells := h.cells.set q (some o) }

/-- The expression `delete static_cast<T*>(p)`: nothing happens on `nullptr`,
otherwise the cell is released. -/
def delete (h : Heap El) (T : U) (p : Nat) : Except Fault (Heap El) :=
  match p with
  | 0 => .ok h
  | q + 1 =>
    match h.lookup (q + 1) with
    | none => .error .dangling
    | some o =>
      if o.ty = T then .ok { cells := h.cells.set q none, avail := h.avail + 1 }
      else .error .bad_cast

end Heap

namespace v3

/-- The address of an operation table.  `null_vtable()` returns the address of
one static object, `vtable_for_type<T>()` that of one static object per `T`. -/
inductive vtable (U : Type) where
  | null_vtable
  | vtable_for_type (T : U)
deriving DecidableEq

/-- The data members of `class Vehicle` with their default member initialisers:
`void* body_ = nullptr; const vtable* vptr_ = null_vtable();`. -/
structure Vehicle (U : Type) where
  body_ : Nat := 0
  vptr_ : vtable U := vtable.null_vtable
deriving DecidableEq

/-- The free store and the handle objects, by name. -/
structure State (K U : Type) (El : U → Type) where
  heap : Heap El
  obj : K → Vehicle U

section

variable {K U : Type} [DecidableEq K] [DecidableEq U] {El : U → Type}
variable (ops : (T : U) → Storable (El T))

/-- Virtual `clone`: `return nullptr;` in the empty table, `return new T{*self.cast<T>()};`
in the table of `T`. -/
def vtable.clone : vtable U → Heap El → Vehicle U → Except Fault (Heap El × Nat)
  | .null_vtable, h, _ => .ok (h, 0)
  | .vtable_for_type T, h, self => do
    let v ← h.deref T self.body_
    h.new ⟨T, (ops T).copy v⟩

/-- Virtual `move`: empty body in the empty table, `self.cast<T>()->move(c);` in the
table of `T`. -/
def vtable.move : vtable U → Heap El → Vehicle U → coordinates → Except Fault (Heap El)
  | .null_vtable, h, _, _ => .ok h
  | .vtable_for_type T, h, self, c => do
    let v ← h.deref T self.body_
    .ok (h.store self.body_ ⟨T, (ops T).move v c⟩)

/-- Virtual `destroy`: empty body in the empty table, `delete self.cast<T>();` in the
table of `T`. -/
def vtable.destroy : vtable U → Heap El → Vehicle U → Except Fault (Heap El)
  | .null_vtable, h, _ => .ok h
  | .vtable_for_type T, h, self => h.delete T self.body_

/-- Virtual `equal`: `return true;` in the empty table,
`return (*x.cast<T>()) == (*y.cast<T>());` in the table of `T`. -/
def vtable.equal : vtable U → Heap El → Vehicle U → Vehicle U → Except Fault Bool
  | .null_vtable, _, _, _ => .ok true
  | .vtable_for_type T, h, x, y => do
    let a ← h.deref T x.body_
    let b ← h.deref T y.body_
    .ok ((ops T).eq a b)

/-- Default constructor `Vehicle() = default;`: the default member initialisers. -/
def Vehicle.default_ctor (s : State K U El) (this : K) : State K U El :=
  { s with obj := Function.update s.obj this {} }

/-- Converting constructor
`Vehicle(T x) : body_{new T(std::move(x))}, vptr_{vtable_for_type<T>()} {}`. -/
def Vehicle.value_ctor (s : State K U El) (this : K) (T : U) (x : El T) :
    Except Fault (State K U El) := do
  let (h, p) ← s.heap.new ⟨T, (ops T).mv x⟩
  .ok { heap := h, obj := Function.update s.obj this ⟨p, .vtable_for_type T⟩ }

/-- Copy constructor
`Vehicle(const Vehicle& x) : body_{x.vptr_->clone(x)}, vptr_{x.vptr_} {}`. -/
def Vehicle.copy_ctor (s : State K U El) (this x : K) : Except Fault (State K U El) := do
  let (h, p) ← (s.obj x).vptr_.clone ops s.heap (s.obj x)
  .ok { heap := h, obj := Function.update s.obj this ⟨p, (s.obj x).vptr_⟩ }

/-- Move constructor
`Vehicle(Vehicle&& x) : body_(std::exchange(x.body_, nullptr)), vptr_(x.vptr_) {}`. -/
def Vehicle.move_ctor (s : State K U El) (this x : K) : State K U El :=
  let old := (s.obj x).body_
  let obj1 := Function.update s.obj x { s.obj x with body_ := 0 }
  { s with obj := Function.update obj1 this ⟨old, (obj1 x).vptr_⟩ }

/-- Move assignment
`body_ = std::exchange(x.body_, nullptr); vptr_ = x.vptr_; return *this;`. -/
def Vehicle.move_assign (s : State K U El) (this x : K) : State K U El :=
  let old := (s.obj x).body_
  let obj1 := Function.update s.obj x { s.obj x with body_ := 0 }
  let obj2 := Function.update obj1 this { obj1 this with body_ := old }
  { s with obj := Function.update obj2 this { obj2 this with vptr_ := (obj2 x).vptr_ } }

/-- Destructor `~Vehicle() { vptr_->destroy(*this); }`. -/
def Vehicle.dtor (s : State K U El) (this : K) : Except Fault (State K U El) := do
  let h ← (s.obj this).vptr_.destroy s.heap (s.obj this)
  .ok { s with heap := h }

/-- Copy assignment `auto tmp = x; *this = std::move(tmp); return *this;`.  The
local `tmp` is the extra name `none`; it is destroyed when the body is left. -/
def Vehicle.copy_assign (s : State K U El) (this x : K) : Except Fault (State K U El) := do
  let s0 : State (Option K) U El :=
    { heap := s.heap, obj := fun k => match k with | none => {} | some k => s.obj k }
  let s1 ← Vehicle.copy_ctor ops s0 none (some x)
  let s2 := Vehicle.move_assign s1 (some this) none
  let s3 ← Vehicle.dtor s2 none
  .ok { heap := s3.heap, obj := fun k => s3.obj (some k) }

/-- The domain operation `void move(const coordinates& c) { vptr_->move(*this, c); }`. -/
def Vehicle.move (s : State K U El) (this : K) (c : coordinates) :
    Except Fault (State K U El) := do
  let h ← (s.obj this).vptr_.move ops s.heap (s.obj this) c
  .ok { s with heap := h }

/-- The friend `operator==`: `x.vptr_ == y.vptr_ && x.vptr_->equal(x, y)`. -/
def Vehicle.op_eq (s : State K U El) (x y : K) : Except Fault Bool :=
  if (s.obj x).vptr_ = (s.obj y).vptr_ then
    (s.obj x).vptr_.equal ops s.heap (s.obj x) (s.obj y)
  else .ok false

/-- The friend `operator!=`: `!(x == y)`. -/
def Vehicle.op_ne (s : State K U El) (x y : K) : Except Fault Bool := do
  let r ← Vehicle.op_eq ops s x y
  .ok (!r)

/-- The handle `v` owns a live `T` of value `a`: it is bound to the table of `T`
and its payload address holds that object. -/
def Vehicle.holds (h : Heap El) (v : Vehicle U) (T : U) (a : El T) : Prop :=
  v.vptr_ = .vtable_for_type T ∧ h.lookup v.body_ = some ⟨T, a⟩

end

end v3

/-- The stored types of the repository: `Boat` is the only one `v3::Vehicle` is built from. -/
inductive Stored where
  | boat
deriving DecidableEq, Repr

/-- The C++ type behind each tag. -/
def Stored.El : Stored → Type
  | .boat => Boat

/-- The operations behind each tag. -/
def Stored.ops : (T : Stored) → Storable (Stored.El T)
  | .boat => Boat.storable

/-- A program state before any handle is constructed: nothing allocated, room
for `n` allocations, every handle name default-initialised. -/
def v3.start (n : Nat) : v3.State Nat Stored Stored.El :=
  { heap := { cells := [], avail := n }, obj := fun _ => {} }

/-- A state of `generic_test` scale: handles `1` and `2` each own a `Boat{1}`,
every other handle name is default-initialised, two allocations are left. -/
def v3.two_boats : v3.State Nat Stored Stored.El :=
  { heap := { cells := [some ⟨.boat, (⟨1⟩ : Boat)⟩, some ⟨.boat, (⟨1⟩ : Boat)⟩], avail := 2 },
    obj := fun k =>
      if k = 1 then ⟨1, .vtable_for_type .boat⟩
      else if k = 2 then ⟨2, .vtable_for_type .boat⟩
      else {} }

namespace v3

/-- A computation that may throw, with the store kept across the throw: from a
state it gives the state in which control leaves it, and either its result or
the exception in flight. -/
def Exec (σ α : Type) : Type := σ → σ × Except Fault α

/-- Returning a value changes nothing. -/
def Exec.pure {σ α : Type} (a : α) : Exec σ α :=
  fun s => (s, .ok a)

/-- Sequencing of two statements: a throw in the first skips the second and
leaves the state the first had reached. -/
def Exec.bind {σ α β : Type} (m : Exec σ α) (f : α → Exec σ β) : Exec σ β :=
  fun s =>
    match m s with
    | (s1, .ok a) => f a s1
    | (s1, .error e) => (s1, .error e)

section

variable {K U : Type} [DecidableEq K] [DecidableEq U] {El : U → Type}
variable (ops : (T : U) → Storable (El T))

/-- Reading the members of the handle named `k`. -/
def Exec.read (k : K) : Exec (State K U El) (Vehicle U) :=
  fun s => (s, .ok (s.obj k))

/-- Writing the members of the handle named `k`. -/
def Exec.write (k : K) (v : Vehicle U) : Exec (State K U El) Unit :=
  fun s => ({ s with obj := Function.update s.obj k v }, .ok ())

/-- The expression `*static_cast<T*>(p)`; it reads only. -/
def Exec.deref (T : U) (p : Nat) : Exec (State K U El) (El T) :=
  fun s => (s, s.heap.deref T p)

/-- The expression `new T(v)`; when it throws, nothing has been allocated. -/
def Exec.new (o : Obj El) : Exec (State K U El) Nat :=
  fun s =>
    match s.heap.new o with
    | .ok (h, p) => ({ s with heap := h }, .ok p)
    | .error e => (s, .error e)

/-- The expression `delete static_cast<T*>(p)`. -/
def Exec.delete (T : U) (p : Nat) : Exec (State K U El) Unit :=
  fun s =>
    match s.heap.delete T p with
    | .ok h => ({ s with heap := h }, .ok ())
    | .error e => (s, .error e)

/-- Virtual `clone`, statement by statement: `return nullptr;` in the empty table,
`return new T{*self.cast<T>()};` in the table of `T`. -/
def Exec.clone : vtable U → Vehicle U → Exec (State K U El) Nat
  | .null_vtable, _ => Exec.pure 0
  | .vtable_for_type T, self =>
    Exec.bind (Exec.deref T self.body_) fun v =>
    Exec.new ⟨T, (ops T).copy v⟩

/-- Virtual `destroy`, statement by statement. -/
def Exec.destroy : vtable U → Vehicle U → Exec (State K U El) Unit
  | .null_vtable, _ => Exec.pure ()
  | .vtable_for_type T, self => Exec.delete T self.body_

/-- Copy constructor `body_{x.vptr_->clone(x)}, vptr_{x.vptr_}`: the members of
`this` are written after `clone` has returned. -/
def Exec.copy_ctor (this x : K) : Exec (State K U El) Unit :=
  Exec.bind (Exec.read x) fun xv =>
  Exec.bind (Exec.clone ops xv.vptr_ xv) fun p =>
  Exec.bind (Exec.read x) fun xv1 =>
  Exec.write this ⟨p, xv1.vptr_⟩

/-- Move assignment `body_ = std::exchange(x.body_, nullptr); vptr_ = x.vptr_;`,
one member access at a time. -/
def Exec.move_assign (this x : K) : Exec (State K U El) Unit :=
  Exec.bind (Exec.read x) fun xv =>
  Exec.bind (Exec.write x { xv with body_ := 0 }) fun _ =>
  Exec.bind (Exec.read this) fun tv =>
  Exec.bind (Exec.write this { tv with body_ := xv.body_ }) fun _ =>
  Exec.bind (Exec.read x) fun xv1 =>
  Exec.bind (Exec.read this) fun tv1 =>
  Exec.write this { tv1 with vptr_ := xv1.vptr_ }

/-- Destructor `~Vehicle() { vptr_->destroy(*this); }`. -/
def Exec.dtor (this : K) : Exec (State K U El) Unit :=
  Exec.bind (Exec.read this) fun v =>
  Exec.destroy v.vptr_ v

/-- Entering the body of copy assignment: the local `tmp` gets the name `none`. -/
def State.enter (s : State K U El) : State (Option K) U El :=
  { heap := s.heap, obj := fun k => match k with | none => {} | some k => s.obj k }

/-- Leaving the body of copy assignment: the name `none` goes away. -/
def State.leave (s : State (Option K) U El) : State K U El :=
  { heap := s.heap, obj := fun k => s.obj (some k) }

/-- Copy assignment `auto tmp = x; *this = std::move(tmp); return *this;` with the
store kept across a throw.  A throw in the initialiser of `tmp` leaves before
`tmp` exists; otherwise `tmp` is destroyed on the way out. -/
def Exec.copy_assign (this x : K) : Exec (State K U El) Unit :=
  fun s =>
    let r := (Exec.bind (Exec.copy_ctor ops none (some x)) fun _ =>
              Exec.bind (Exec.move_assign (some this) none) fun _ =>
              Exec.dtor none) s.enter
    (r.1.leave, r.2)

/-- A payload that is live in the free store while no handle points to it. -/
def State.leaked (s : State K U El) (p : Nat) : Prop :=
  (s.heap.lookup p).isSome = true ∧ ∀ k, (s.obj k).body_ ≠ p

/-- The states a program reaches from default-initialised handles by the
constructors, the two assignments and the domain operation. -/
inductive Reachable : State K U El → Prop where
  | init (h : Heap El) : Reachable { heap := h, obj := fun _ => {} }
  | default_ctor {s : State K U El} (this : K) :
      Reachable s → Reachable (Vehicle.default_ctor s this)
  | value_ctor {s s' : State K U El} (this : K) (T : U) (x : El T) :
      Reachable s → Vehicle.value_ctor ops s this T x = .ok s' → Reachable s'
  | copy_ctor {s s' : State K U El} (this x : K) :
      Reachable s → Vehicle.copy_ctor ops s this x = .ok s' → Reachable s'
  | move_ctor {s : State K U El} (this x : K) :
      Reachable s → Reachable (Vehicle.move_ctor s this x)
  | copy_assign {s s' : State K U El} (this x : K) :
      Reachable s → Vehicle.copy_assign ops s this x = .ok s' → Reachable s'
  | move_assign {s : State K U El} (this x : K) :
      Reachable s → Reachable (Vehicle.move_assign s this x)
  | move {s s' : State K U El} (this : K) (c : coordinates) :
      Reachable s → Vehicle.move ops s this c = .ok s' → Reachable s'

/-- The states whose handles are all produced by default construction, value
construction and copying (copy construction or copy assignment). -/
inductive Built : State K U El → Prop where
  | init (h : Heap El) : Built { heap := h, obj := fun _ => {} }
  | default_ctor {s : State K U El} (this : K) :
      Built s → Built (Vehicle.default_ctor s this)
  | value_ctor {s s' : State K U El} (this : K) (T : U) (x : El T) :
      Built s → Vehicle.value_ctor ops s this T x = .ok s' → Built s'
  | copy_ctor {s s' : State K U El} (this x : K) :
      Built s → Vehicle.copy_ctor ops s this x = .ok s' → Built s'
  | copy_assign {s s' : State K U El} (this x : K) :
      Built s → Vehicle.copy_assign ops s this x = .ok s' → Built s'

end

/-- The state `two_boats` with the allocation budget used up. -/
def no_room : State Nat Stored Stored.El :=
  { two_boats with heap := { two_boats.heap with avail := 0 } }

end v3

section
variable {U : Type} {El : U → Type}

theorem Obj.cast_self [DecidableEq U] (T : U) (a : El T) : (⟨T, a⟩ : Obj El).cast T = some a := by
  simp [Obj.cast]

namespace Heap

theorem lookup_null (h : Heap El) : h.lookup 0 = none := rfl

theorem new_ok (h : Heap El) (o : Obj El) (ha : 0 < h.avail) :
    h.new o = .ok ({ cells := h.cells ++ [some o], avail := h.avail - 1 }, h.cells.length + 1) := by
  have : h.avail ≠ 0 := Nat.pos_iff_ne_zero.mp ha
  simp [new, this]

theorem lookup_snoc_self (h : Heap El) (o : Obj El) (n : Nat) :
    (Heap.mk (h.cells ++ [some o]) n).lookup (h.cells.length + 1) = some o := by
  simp [lookup]

theorem lookup_snoc_of_live (h : Heap El) (o o' : Obj El) (n p : Nat)
    (hp : h.lookup p = some o') :
    (Heap.mk (h.cells ++ [some o]) n).lookup p = some o' := by
  cases p with
  | zero => simp [lookup] at hp
  | succ q =>
    simp only [lookup] at hp ⊢
    by_cases hq : q < h.cells.length
    · rw [List.getElem?_append_left hq]
      exact hp
    · have : h.cells[q]? = none := List.getElem?_eq_none (Nat.le_of_not_lt hq)
      rw [this] at hp
      simp at hp

theorem live_ne_fresh (h : Heap El) (o' : Obj El) (p : Nat)
    (hp : h.lookup p = some o') : p ≠ h.cells.length + 1 := by
  intro hq
  subst hq
  simp [lookup] at hp

theorem lookup_store_self (h : Heap El) (p : Nat) (o o' : Obj El)
    (hp : h.lookup p = some o') : (h.store p o).lookup p = some o := by
  cases p with
  | zero => simp [lookup] at hp
  | succ q =>
    simp only [lookup] at hp
    have hq : q < h.cells.length := by
      by_contra hq
      have : h.cells[q]? = none := List.getElem?_eq_none (Nat.le_of_not_lt hq)
      rw [this] at hp
      simp at hp
    simp [lookup, store, List.getElem?_set, hq]

theorem lookup_store_other (h : Heap El) (p q : Nat) (o : Obj El) (hpq : p ≠ q) :
    (h.store p o).lookup q = h.lookup q := by
  cases p with
  | zero => rfl
  | succ p =>
    cases q with
    | zero => rfl
    | succ q =>
      have : p ≠ q := fun e => hpq (by rw [e])
      simp [lookup, store, List.getElem?_set, this]

theorem deref_of_lookup [DecidableEq U] (h : Heap El) (T : U) (a : El T) (p : Nat)
    (hp : h.lookup p = some ⟨T, a⟩) : h.deref T p = .ok a := by
  have h0 : p ≠ 0 := by
    intro e
    subst e
    simp [lookup] at hp
  simp [deref, h0, hp, Obj.cast_self]

theorem deref_null [DecidableEq U] (h : Heap El) (T : U) : h.deref T 0 = .error .null_deref := by
  simp [deref]

end Heap
end

namespace v3

section
variable {K U : Type} {El : U → Type}
variable (ops : (T : U) → Storable (El T))

theorem holds_body_ne_null {h : Heap El} {v : Vehicle U} {T : U} {a : El T}
    (hv : Vehicle.holds h v T a) : v.body_ ≠ 0 := by
  intro e
  have := hv.2
  rw [e] at this
  simp [Heap.lookup] at this

theorem holds_congr_heap {h h' : Heap El} {v : Vehicle U} {T : U} {a : El T}
    (hv : Vehicle.holds h v T a) (hl : h'.lookup v.body_ = h.lookup v.body_) :
    Vehicle.holds h' v T a :=
  ⟨hv.1, hl.trans hv.2⟩

theorem value_ctor_ok [DecidableEq K] (s : State K U El) (this : K) (T : U) (x : El T) (ha : 0 < s.heap.avail) :
    Vehicle.value_ctor ops s this T x = .ok
      { heap := { cells := s.heap.cells ++ [some ⟨T, (ops T).mv x⟩], avail := s.heap.avail - 1 },
        obj := Function.update s.obj this ⟨s.heap.cells.length + 1, .vtable_for_type T⟩ } := by
  simp [Vehicle.value_ctor, Heap.new_ok _ _ ha, bind, Except.bind]

theorem copy_ctor_of_holds [DecidableEq K] [DecidableEq U] (s : State K U El) (this x : K) (T : U) (a : El T)
    (hx : Vehicle.holds s.heap (s.obj x) T a) (ha : 0 < s.heap.avail) :
    Vehicle.copy_ctor ops s this x = .ok
      { heap := { cells := s.heap.cells ++ [some ⟨T, (ops T).copy a⟩], avail := s.heap.avail - 1 },
        obj := Function.update s.obj this ⟨s.heap.cells.length + 1, .vtable_for_type T⟩ } := by
  simp [Vehicle.copy_ctor, hx.1, vtable.clone, Heap.deref_of_lookup _ _ _ _ hx.2,
    Heap.new_ok _ _ ha, bind, Except.bind]

theorem copy_ctor_of_null_vtable [DecidableEq K] [DecidableEq U] (s : State K U El) (this x : K)
    (hx : (s.obj x).vptr_ = .null_vtable) :
    Vehicle.copy_ctor ops s this x = .ok
      { heap := s.heap, obj := Function.update s.obj this ⟨0, .null_vtable⟩ } := by
  simp [Vehicle.copy_ctor, hx, vtable.clone, bind, Except.bind]

theorem move_ctor_heap [DecidableEq K] (s : State K U El) (this x : K) :
    (Vehicle.move_ctor s this x).heap = s.heap := rfl

theorem move_ctor_obj_this [DecidableEq K] (s : State K U El) (this x : K) :
    (Vehicle.move_ctor s this x).obj this = s.obj x := by
  simp [Vehicle.move_ctor]

theorem move_ctor_obj_src [DecidableEq K] (s : State K U El) (this x : K) (hne : this ≠ x) :
    (Vehicle.move_ctor s this x).obj x = { s.obj x with body_ := 0 } := by
  simp [Vehicle.move_ctor, Function.update_apply, hne.symm]

theorem move_ctor_obj_other [DecidableEq K] (s : State K U El) (this x k : K)
    (h1 : k ≠ this) (h2 : k ≠ x) : (Vehicle.move_ctor s this x).obj k = s.obj k := by
  simp [Vehicle.move_ctor, Function.update_apply, h1, h2]

theorem move_assign_heap [DecidableEq K] (s : State K U El) (this x : K) :
    (Vehicle.move_assign s this x).heap = s.heap := rfl

theorem move_assign_obj_this [DecidableEq K] (s : State K U El) (this x : K) :
    (Vehicle.move_assign s this x).obj this = s.obj x := by
  by_cases hne : this = x
  · subst hne
    simp [Vehicle.move_assign]
  · have hne2 : ¬ x = this := fun e => hne e.symm
    simp [Vehicle.move_assign, Function.update_apply, hne2]

theorem move_assign_obj_src [DecidableEq K] (s : State K U El) (this x : K) (hne : this ≠ x) :
    (Vehicle.move_assign s this x).obj x = { s.obj x with body_ := 0 } := by
  simp [Vehicle.move_assign, Function.update_apply, hne.symm]

theorem move_assign_obj_other [DecidableEq K] (s : State K U El) (this x k : K)
    (h1 : k ≠ this) (h2 : k ≠ x) : (Vehicle.move_assign s this x).obj k = s.obj k := by
  simp [Vehicle.move_assign, Function.update_apply, h1, h2]

theorem copy_assign_of_holds [DecidableEq K] [DecidableEq U] (s : State K U El) (this x : K)
    (T : U) (a : El T) (hx : Vehicle.holds s.heap (s.obj x) T a) (ha : 0 < s.heap.avail) :
    Vehicle.copy_assign ops s this x = .ok
      { heap := { cells := s.heap.cells ++ [some ⟨T, (ops T).copy a⟩], avail := s.heap.avail - 1 },
        obj := Function.update s.obj this ⟨s.heap.cells.length + 1, .vtable_for_type T⟩ } := by
  unfold Vehicle.copy_assign
  dsimp only
  rw [copy_ctor_of_holds ops _ none (some x) T a hx ha]
  simp only [bind, Except.bind, Vehicle.dtor]
  rw [move_assign_obj_src _ _ _ (Option.some_ne_none this)]
  simp only [Function.update_same, vtable.destroy, Heap.delete, move_assign_heap]
  congr 2
  funext k
  by_cases hk : k = this
  · subst hk
    simp [move_assign_obj_this]
  · rw [move_assign_obj_other _ _ _ _ (fun e => hk (Option.some.inj e)) (Option.some_ne_none k)]
    simp [Function.update_apply, hk]

theorem copy_assign_of_null_vtable [DecidableEq K] [DecidableEq U] (s : State K U El)
    (this x : K) (hx : (s.obj x).vptr_ = .null_vtable) :
    Vehicle.copy_assign ops s this x = .ok
      { heap := s.heap, obj := Function.update s.obj this ⟨0, .null_vtable⟩ } := by
  unfold Vehicle.copy_assign
  dsimp only
  rw [copy_ctor_of_null_vtable ops _ none (some x) hx]
  simp only [bind, Except.bind, Vehicle.dtor]
  rw [move_assign_obj_src _ _ _ (Option.some_ne_none this)]
  simp only [Function.update_same, vtable.destroy, move_assign_heap]
  congr 2
  funext k
  by_cases hk : k = this
  · subst hk
    simp [move_assign_obj_this]
  · rw [move_assign_obj_other _ _ _ _ (fun e => hk (Option.some.inj e)) (Option.some_ne_none k)]
    simp [Function.update_apply, hk]

theorem op_eq_of_holds [DecidableEq U] (s : State K U El) (x y : K) (T : U) (a b : El T)
    (hx : Vehicle.holds s.heap (s.obj x) T a) (hy : Vehicle.holds s.heap (s.obj y) T b) :
    Vehicle.op_eq ops s x y = .ok ((ops T).eq a b) := by
  simp [Vehicle.op_eq, hx.1, hy.1, vtable.equal, Heap.deref_of_lookup _ _ _ _ hx.2,
    Heap.deref_of_lookup _ _ _ _ hy.2, bind, Except.bind]

theorem op_eq_of_null_vtable [DecidableEq U] (s : State K U El) (x y : K)
    (hx : (s.obj x).vptr_ = .null_vtable) (hy : (s.obj y).vptr_ = .null_vtable) :
    Vehicle.op_eq ops s x y = .ok true := by
  simp [Vehicle.op_eq, hx, hy, vtable.equal]

theorem move_of_holds [DecidableEq U] (s : State K U El) (this : K) (c : coordinates) (T : U) (a : El T)
    (hx : Vehicle.holds s.heap (s.obj this) T a) :
    Vehicle.move ops s this c = .ok
      { s with heap := s.heap.store (s.obj this).body_ ⟨T, (ops T).move a c⟩ } := by
  simp [Vehicle.move, hx.1, vtable.move, Heap.deref_of_lookup _ _ _ _ hx.2, bind, Except.bind]

theorem move_of_null_vtable [DecidableEq U] (s : State K U El) (this : K) (c : coordinates)
    (hx : (s.obj this).vptr_ = .null_vtable) :
    Vehicle.move ops s this c = .ok s := by
  simp [Vehicle.move, hx, vtable.move, bind, Except.bind]

/-- After `new` has placed an object for the handle named `a`, that handle owns it. -/
theorem holds_fresh [DecidableEq K] (s : State K U El) (a : K) (T : U) (v : El T) (n : Nat) :
    Vehicle.holds (Heap.mk (s.heap.cells ++ [some ⟨T, v⟩]) n)
      (Function.update s.obj a ⟨s.heap.cells.length + 1, .vtable_for_type T⟩ a) T v := by
  rw [Function.update_same]
  exact ⟨rfl, Heap.lookup_snoc_self s.heap _ n⟩

/-- An allocation for the handle named `a` leaves every other owning handle as it was. -/
theorem holds_after_alloc [DecidableEq K] (s : State K U El) (a k : K) (o : Obj El) (n : Nat)
    (w : Vehicle U) (T : U) (v : El T) (hk : k ≠ a) (hv : Vehicle.holds s.heap (s.obj k) T v) :
    Vehicle.holds (Heap.mk (s.heap.cells ++ [some o]) n) (Function.update s.obj a w k) T v := by
  rw [Function.update_noteq hk]
  exact ⟨hv.1, Heap.lookup_snoc_of_live s.heap o _ n _ hv.2⟩

/-- The converting constructor makes its handle own the moved-in value. -/
theorem value_ctor_holds [DecidableEq K] (s : State K U El) (this : K) (T : U) (x : El T)
    (ha : 0 < s.heap.avail) :
    ∃ s', Vehicle.value_ctor ops s this T x = .ok s' ∧
      Vehicle.holds s'.heap (s'.obj this) T ((ops T).mv x) ∧
      s'.heap.avail = s.heap.avail - 1 ∧
      ∀ k T' (v : El T'), k ≠ this → Vehicle.holds s.heap (s.obj k) T' v →
        Vehicle.holds s'.heap (s'.obj k) T' v :=
  ⟨_, value_ctor_ok ops s this T x ha, holds_fresh s this T _ _, rfl,
    fun k _ v hk hv => holds_after_alloc s this k _ _ _ _ v hk hv⟩

/-- What copying `b` into `a` and then moving `a` leaves behind, stated on the state
both copy operations produce. -/
theorem copy_then_move [DecidableEq K] [DecidableEq U] (s : State K U El) (a b t : K) (T : U)
    (y z : El T) (c : coordinates) (hab : a ≠ b) (hat : a ≠ t)
    (hb : Vehicle.holds s.heap (s.obj b) T y) (ht : Vehicle.holds s.heap (s.obj t) T z)
    (heq : (ops T).eq y z = true) (s1 : State K U El)
    (hs1 : s1 = { heap := { cells := s.heap.cells ++ [some ⟨T, (ops T).copy y⟩],
                            avail := s.heap.avail - 1 },
                  obj := Function.update s.obj a ⟨s.heap.cells.length + 1, .vtable_for_type T⟩ }) :
    ∃ s2, Vehicle.move ops s1 a c = .ok s2 ∧
      s2.obj b = s.obj b ∧ Vehicle.holds s2.heap (s2.obj b) T y ∧
      s2.obj t = s.obj t ∧ Vehicle.holds s2.heap (s2.obj t) T z ∧
      Vehicle.op_eq ops s2 b t = .ok true ∧
      Vehicle.op_eq ops s2 a b = .ok ((ops T).eq ((ops T).move ((ops T).copy y) c) y) ∧
      Vehicle.op_ne ops s2 a b = .ok (!(ops T).eq ((ops T).move ((ops T).copy y) c) y) := by
  subst hs1
  have h1a := holds_fresh s a T ((ops T).copy y) (s.heap.avail - 1)
  have h1b := holds_after_alloc s a b ⟨T, (ops T).copy y⟩ (s.heap.avail - 1)
    ⟨s.heap.cells.length + 1, .vtable_for_type T⟩ T y hab.symm hb
  have h1t := holds_after_alloc s a t ⟨T, (ops T).copy y⟩ (s.heap.avail - 1)
    ⟨s.heap.cells.length + 1, .vtable_for_type T⟩ T z hat.symm ht
  have hbody : ∀ k, k ≠ a → ∀ w : El T, Vehicle.holds s.heap (s.obj k) T w →
      s.heap.cells.length + 1 ≠ (s.obj k).body_ :=
    fun k _ w hw => (Heap.live_ne_fresh s.heap _ _ hw.2).symm
  refine ⟨_, move_of_holds ops _ a c T _ h1a, ?_, ?_, ?_, ?_, ?_⟩
  · exact Function.update_noteq hab.symm _ _
  · refine ⟨h1b.1, ?_⟩
    simp only [Function.update_same]
    rw [Heap.lookup_store_other]
    · exact h1b.2
    · rw [Function.update_noteq hab.symm]
      exact hbody b hab.symm y hb
  · exact Function.update_noteq hat.symm _ _
  · refine ⟨h1t.1, ?_⟩
    simp only [Function.update_same]
    rw [Heap.lookup_store_other]
    · exact h1t.2
    · rw [Function.update_noteq hat.symm]
      exact hbody t hat.symm z ht
  · have hb2 : Vehicle.holds
        (Heap.store (Heap.mk (s.heap.cells ++ [some ⟨T, (ops T).copy y⟩]) (s.heap.avail - 1))
          (s.heap.cells.length + 1) ⟨T, (ops T).move ((ops T).copy y) c⟩)
        (Function.update s.obj a ⟨s.heap.cells.length + 1, .vtable_for_type T⟩ b) T y := by
      refine ⟨h1b.1, ?_⟩
      rw [Heap.lookup_store_other]
      · exact h1b.2
      · rw [Function.update_noteq hab.symm]
        exact hbody b hab.symm y hb
    have ht2 : Vehicle.holds
        (Heap.store (Heap.mk (s.heap.cells ++ [some ⟨T, (ops T).copy y⟩]) (s.heap.avail - 1))
          (s.heap.cells.length + 1) ⟨T, (ops T).move ((ops T).copy y) c⟩)
        (Function.update s.obj a ⟨s.heap.cells.length + 1, .vtable_for_type T⟩ t) T z := by
      refine ⟨h1t.1, ?_⟩
      rw [Heap.lookup_store_other]
      · exact h1t.2
      · rw [Function.update_noteq hat.symm]
        exact hbody t hat.symm z ht
    have ha2 : Vehicle.holds
        (Heap.store (Heap.mk (s.heap.cells ++ [some ⟨T, (ops T).copy y⟩]) (s.heap.avail - 1))
          (s.heap.cells.length + 1) ⟨T, (ops T).move ((ops T).copy y) c⟩)
        (Function.update s.obj a ⟨s.heap.cells.length + 1, .vtable_for_type T⟩ a) T
        ((ops T).move ((ops T).copy y) c) := by
      refine ⟨h1a.1, ?_⟩
      rw [Function.update_same]
      exact Heap.lookup_store_self _ _ _ _ (Heap.lookup_snoc_self s.heap _ _)
    simp only [Function.update_same]
    refine ⟨?_, ?_, ?_⟩
    · rw [op_eq_of_holds ops _ b t T y z hb2 ht2, heq]
    · rw [op_eq_of_holds ops _ a b T _ y ha2 hb2]
    · simp only [Vehicle.op_ne]
      rw [op_eq_of_holds ops _ a b T _ y ha2 hb2]
      rfl

/-- For `Boat`, a moved copy equals the original exactly when the target
coordinate is the original position. -/
theorem boat_moved_copy_eq (y : Boat) (c : coordinates) :
    (Stored.ops .boat).eq ((Stored.ops .boat).move ((Stored.ops .boat).copy y) c) y
      = (c.x == y.pos) := rfl

/-- C1, evaluated at the failing input `Vehicle v1{Boat{}}; Vehicle v2{std::move(v1)};`
and `Vehicle v1{Boat{}}; Vehicle v2; v2 = std::move(v1);`: the moved-from handle
`v1` has a null payload but is still bound to the table of `Boat`, not to the
table returned by `null_vtable()`. -/
theorem C1_moved_from_keeps_table :
    ∃ s, Vehicle.value_ctor Stored.ops (start 1) 1 .boat ({ pos := 0 } : Boat) = .ok s ∧
      (Vehicle.move_ctor s 2 1).obj 1 = ⟨0, .vtable_for_type .boat⟩ ∧
      ((Vehicle.move_ctor s 2 1).obj 1).vptr_ ≠ .null_vtable ∧
      (Vehicle.move_assign (Vehicle.default_ctor s 2) 2 1).obj 1 = ⟨0, .vtable_for_type .boat⟩ ∧
      ((Vehicle.move_assign (Vehicle.default_ctor s 2) 2 1).obj 1).vptr_ ≠ .null_vtable := by
  refine ⟨_, value_ctor_ok Stored.ops (start 1) 1 .boat _ (by decide), ?_, ?_, ?_, ?_⟩ <;>
    simp [Vehicle.move_ctor, Vehicle.move_assign, Vehicle.default_ctor, start,
      Function.update_apply]

/-- C2: value independence.  Let `b` and a third handle `t` own equal values of
type `T` (as `Vehicle(x)` twice does), and let `a` be another handle.  After `a`
is made a copy of `b`, by copy construction or by `a = b`, and `a.move(c)` is
invoked, `b` and `t` are the handles they were, own the values they owned, and
`b == t` is still true; `a == b` is exactly the equality of `T` between the moved
copy and the value of `b`, so `a != b` when they differ. -/
theorem C2_value_independence [DecidableEq K] [DecidableEq U] (s : State K U El) (a b t : K)
    (T : U) (y z : El T) (c : coordinates) (hab : a ≠ b) (hat : a ≠ t)
    (hb : Vehicle.holds s.heap (s.obj b) T y) (ht : Vehicle.holds s.heap (s.obj t) T z)
    (heq : (ops T).eq y z = true) (ha : 0 < s.heap.avail) :
    (∃ s1 s2, Vehicle.copy_ctor ops s a b = .ok s1 ∧ Vehicle.move ops s1 a c = .ok s2 ∧
      s2.obj b = s.obj b ∧ Vehicle.holds s2.heap (s2.obj b) T y ∧
      s2.obj t = s.obj t ∧ Vehicle.holds s2.heap (s2.obj t) T z ∧
      Vehicle.op_eq ops s2 b t = .ok true ∧
      Vehicle.op_eq ops s2 a b = .ok ((ops T).eq ((ops T).move ((ops T).copy y) c) y) ∧
      Vehicle.op_ne ops s2 a b = .ok (!(ops T).eq ((ops T).move ((ops T).copy y) c) y)) ∧
    (∃ s1 s2, Vehicle.copy_assign ops s a b = .ok s1 ∧ Vehicle.move ops s1 a c = .ok s2 ∧
      s2.obj b = s.obj b ∧ Vehicle.holds s2.heap (s2.obj b) T y ∧
      s2.obj t = s.obj t ∧ Vehicle.holds s2.heap (s2.obj t) T z ∧
      Vehicle.op_eq ops s2 b t = .ok true ∧
      Vehicle.op_eq ops s2 a b = .ok ((ops T).eq ((ops T).move ((ops T).copy y) c) y) ∧
      Vehicle.op_ne ops s2 a b = .ok (!(ops T).eq ((ops T).move ((ops T).copy y) c) y)) := by
  obtain ⟨s2, h2⟩ := copy_then_move ops s a b t T y z c hab hat hb ht heq _ rfl
  exact ⟨⟨_, s2, copy_ctor_of_holds ops s a b T y hb ha, h2⟩,
    ⟨_, s2, copy_assign_of_holds ops s a b T y hb ha, h2⟩⟩

/-- C2 at `Boat`: handles `1` and `2` own `Boat{1}`; handle `3` becomes a copy of
handle `1` and is moved to `coordinates{5}`.  Handle `1` still equals handle `2`,
and handle `3` differs from handle `1`. -/
theorem C2_value_independence_witness :
    (∃ s1 s2, Vehicle.copy_ctor Stored.ops two_boats 3 1 = .ok s1 ∧
      Vehicle.move Stored.ops s1 3 ⟨5⟩ = .ok s2 ∧
      Vehicle.op_eq Stored.ops s2 1 2 = .ok true ∧
      Vehicle.op_ne Stored.ops s2 3 1 = .ok true) ∧
    (∃ s1 s2, Vehicle.copy_assign Stored.ops two_boats 3 1 = .ok s1 ∧
      Vehicle.move Stored.ops s1 3 ⟨5⟩ = .ok s2 ∧
      Vehicle.op_eq Stored.ops s2 1 2 = .ok true ∧
      Vehicle.op_ne Stored.ops s2 3 1 = .ok true) := by
  have h := C2_value_independence Stored.ops two_boats 3 1 2 .boat
    (⟨1⟩ : Boat) (⟨1⟩ : Boat) ⟨5⟩ (by decide) (by decide) ⟨rfl, rfl⟩ ⟨rfl, rfl⟩ rfl (by decide)
  obtain ⟨⟨s1, s2, e1, e2, -, -, -, -, e3, -, e4⟩, ⟨r1, r2, f1, f2, -, -, -, -, f3, -, f4⟩⟩ := h
  exact ⟨⟨s1, s2, e1, e2, e3, e4⟩, ⟨r1, r2, f1, f2, f3, f4⟩⟩

/-- C3: copy assignment `a = b` between two different handles, where `b` is empty
or owns a value and copies of stored values equal their originals: the
assignment returns, `a == b` is then true, and `b` is the same handle (payload
address and table) owning the same value as before. -/
theorem C3_copy_assign_equal [DecidableEq K] [DecidableEq U] (s : State K U El) (a b : K)
    (hab : a ≠ b) (ha : 0 < s.heap.avail)
    (hb : s.obj b = ⟨0, .null_vtable⟩ ∨ ∃ T y, Vehicle.holds s.heap (s.obj b) T y)
    (hcopy : ∀ (T : U) (y : El T), (ops T).eq ((ops T).copy y) y = true) :
    ∃ s', Vehicle.copy_assign ops s a b = .ok s' ∧
      Vehicle.op_eq ops s' a b = .ok true ∧
      s'.obj b = s.obj b ∧
      ∀ (T : U) (y : El T), Vehicle.holds s.heap (s.obj b) T y →
        Vehicle.holds s'.heap (s'.obj b) T y := by
  rcases hb with hb | ⟨T, y, hb⟩
  · have hv : (s.obj b).vptr_ = .null_vtable := by rw [hb]
    refine ⟨_, copy_assign_of_null_vtable ops s a b hv, ?_, ?_, ?_⟩
    · apply op_eq_of_null_vtable
      · simp
      · simp [Function.update_noteq hab.symm, hv]
    · exact Function.update_noteq hab.symm _ _
    · intro T y hy
      rw [hy.1] at hv
      cases hv
  · refine ⟨_, copy_assign_of_holds ops s a b T y hb ha, ?_, ?_, ?_⟩
    · rw [op_eq_of_holds ops _ a b T ((ops T).copy y) y (holds_fresh s a T _ _)
        (holds_after_alloc s a b _ _ _ T y hab.symm hb)]
      rw [hcopy]
    · exact Function.update_noteq hab.symm _ _
    · intro T' y' hy
      exact holds_after_alloc s a b _ _ _ T' y' hab.symm hy

/-- C3 on the two shapes of `generic_test`: a `Boat` handle assigned to another
handle, and an empty handle assigned to a `Boat` handle. -/
theorem C3_copy_assign_equal_witness :
    (∃ s', Vehicle.copy_assign Stored.ops two_boats 3 1 = .ok s' ∧
      Vehicle.op_eq Stored.ops s' 3 1 = .ok true ∧ s'.obj 1 = two_boats.obj 1) ∧
    (∃ s', Vehicle.copy_assign Stored.ops two_boats 1 3 = .ok s' ∧
      Vehicle.op_eq Stored.ops s' 1 3 = .ok true ∧ s'.obj 3 = two_boats.obj 3) := by
  obtain ⟨s1, e1, e2, e3, -⟩ := C3_copy_assign_equal Stored.ops two_boats 3 1 (by decide)
    (by decide) (Or.inr ⟨.boat, (⟨1⟩ : Boat), rfl, rfl⟩)
    (fun T y => by cases T; simp [Stored.ops, Boat.storable, Boat.eq])
  obtain ⟨s2, f1, f2, f3, -⟩ := C3_copy_assign_equal Stored.ops two_boats 1 3 (by decide)
    (by decide) (Or.inl rfl)
    (fun T y => by cases T; simp [Stored.ops, Boat.storable, Boat.eq])
  exact ⟨⟨s1, e1, e2, e3⟩, ⟨s2, f1, f2, f3⟩⟩

/-- C4: for two handles constructed from values `p` and `q` of one type `T`,
`operator==` returns the equality of `T` on the two stored values; for `Boat`
that is: `Vehicle(p) == Vehicle(q)` is true exactly when `p.pos = q.pos`, and
`Vehicle(p) != Vehicle(q)` exactly when they differ. -/
theorem C4_equality_delegates :
    (∀ (K U : Type) [DecidableEq K] [DecidableEq U] (El : U → Type)
      (ops : (T : U) → Storable (El T)) (s : State K U El) (v1 v2 : K) (T : U) (p q : El T),
      v1 ≠ v2 → 2 ≤ s.heap.avail →
      ∃ s1 s2, Vehicle.value_ctor ops s v1 T p = .ok s1 ∧
        Vehicle.value_ctor ops s1 v2 T q = .ok s2 ∧
        Vehicle.op_eq ops s2 v1 v2 = .ok ((ops T).eq ((ops T).mv p) ((ops T).mv q))) ∧
    (∀ (s : State Nat Stored Stored.El) (v1 v2 : Nat) (p q : Boat),
      v1 ≠ v2 → 2 ≤ s.heap.avail →
      ∃ s1 s2, Vehicle.value_ctor Stored.ops s v1 .boat p = .ok s1 ∧
        Vehicle.value_ctor Stored.ops s1 v2 .boat q = .ok s2 ∧
        (Vehicle.op_eq Stored.ops s2 v1 v2 = .ok true ↔ p.pos = q.pos) ∧
        (Vehicle.op_ne Stored.ops s2 v1 v2 = .ok true ↔ p.pos ≠ q.pos)) := by
  have gen : ∀ (K U : Type) [DecidableEq K] [DecidableEq U] (El : U → Type)
      (ops : (T : U) → Storable (El T)) (s : State K U El) (v1 v2 : K) (T : U) (p q : El T),
      v1 ≠ v2 → 2 ≤ s.heap.avail →
      ∃ s1 s2, Vehicle.value_ctor ops s v1 T p = .ok s1 ∧
        Vehicle.value_ctor ops s1 v2 T q = .ok s2 ∧
        Vehicle.op_eq ops s2 v1 v2 = .ok ((ops T).eq ((ops T).mv p) ((ops T).mv q)) := by
    intro K U _ _ El ops s v1 v2 T p q hne hav
    obtain ⟨s1, e1, h1, hav1, -⟩ := value_ctor_holds ops s v1 T p (by omega)
    obtain ⟨s2, e2, h2, -, hfr⟩ := value_ctor_holds ops s1 v2 T q (by omega)
    exact ⟨s1, s2, e1, e2, op_eq_of_holds ops s2 v1 v2 T _ _ (hfr v1 T _ hne h1) h2⟩
  refine ⟨gen, ?_⟩
  intro s v1 v2 p q hne hav
  obtain ⟨s1, s2, e1, e2, e3⟩ := gen Nat Stored Stored.El Stored.ops s v1 v2 .boat p q hne hav
  refine ⟨s1, s2, e1, e2, ?_, ?_⟩
  · rw [e3]
    simp [Stored.ops, Boat.storable, Boat.eq]
  · simp only [Vehicle.op_ne]
    rw [e3]
    simp [Stored.ops, Boat.storable, Boat.eq, bind, Except.bind]

/-- C4 at `Boat{1}` and `Boat{2}`, the first check of `generic_test`: `v1 != v2`. -/
theorem C4_equality_delegates_witness :
    ∃ s1 s2, Vehicle.value_ctor Stored.ops (start 2) 1 .boat (⟨1⟩ : Boat) = .ok s1 ∧
      Vehicle.value_ctor Stored.ops s1 2 .boat (⟨2⟩ : Boat) = .ok s2 ∧
      Vehicle.op_ne Stored.ops s2 1 2 = .ok true := by
  obtain ⟨s1, s2, e1, e2, -, e3⟩ :=
    C4_equality_delegates.2 (start 2) 1 2 ⟨1⟩ ⟨2⟩ (by decide) (by decide)
  exact ⟨s1, s2, e1, e2, e3.mpr (by decide)⟩

/-- C5: two handles whose table pointers differ are unequal: `==` is false and
`!=` is true, in every state of the free store and for every choice of the
stored types' operations, so neither the payloads nor the payload-level `equal`
take part in the answer. -/
theorem C5_cross_table_unequal [DecidableEq U] (s : State K U El) (x y : K)
    (hne : (s.obj x).vptr_ ≠ (s.obj y).vptr_) :
    Vehicle.op_eq ops s x y = .ok false ∧ Vehicle.op_ne ops s x y = .ok true ∧
    ∀ (ops' : (T : U) → Storable (El T)) (h' : Heap El),
      Vehicle.op_eq ops' { s with heap := h' } x y = .ok false := by
  refine ⟨?_, ?_, ?_⟩
  · simp [Vehicle.op_eq, hne]
  · simp [Vehicle.op_ne, Vehicle.op_eq, hne, bind, Except.bind]
  · intro ops' h'
    simp [Vehicle.op_eq, hne]

/-- C5 on a `Boat` handle against an empty handle. -/
theorem C5_cross_table_unequal_witness :
    Vehicle.op_eq Stored.ops two_boats 1 3 = .ok false ∧
    Vehicle.op_ne Stored.ops two_boats 1 3 = .ok true :=
  ⟨(C5_cross_table_unequal Stored.ops two_boats 1 3 (by decide)).1,
   (C5_cross_table_unequal Stored.ops two_boats 1 3 (by decide)).2.1⟩

/-- Comparison only reads the two handles and the free store. -/
theorem op_eq_congr [DecidableEq U] (s s' : State K U El) (x y x' y' : K)
    (hh : s'.heap = s.heap) (hx : s'.obj x' = s.obj x) (hy : s'.obj y' = s.obj y) :
    Vehicle.op_eq ops s' x' y' = Vehicle.op_eq ops s x y := by
  simp only [Vehicle.op_eq, hh, hx, hy]

/-- C6: the handle `h2` obtained by moving from another handle `h`, by move
construction or by move assignment, is exactly the pair of payload and table
that `h` was, over an unchanged free store; hence comparing `h2` with any
third handle gives what comparing `h` with it gave before the move; and a
default-constructed `h2` that `h` compared equal to compares equal to itself
after `h2 = std::move(h)`. -/
theorem C6_move_transfers [DecidableEq K] [DecidableEq U] (s : State K U El) (h h2 : K) :
    ((Vehicle.move_ctor s h2 h).obj h2 = s.obj h ∧
      (Vehicle.move_ctor s h2 h).heap = s.heap ∧
      ∀ k, k ≠ h → k ≠ h2 →
        Vehicle.op_eq ops (Vehicle.move_ctor s h2 h) h2 k = Vehicle.op_eq ops s h k ∧
        Vehicle.op_eq ops (Vehicle.move_ctor s h2 h) k h2 = Vehicle.op_eq ops s k h) ∧
    ((Vehicle.move_assign s h2 h).obj h2 = s.obj h ∧
      (Vehicle.move_assign s h2 h).heap = s.heap ∧
      ∀ k, k ≠ h → k ≠ h2 →
        Vehicle.op_eq ops (Vehicle.move_assign s h2 h) h2 k = Vehicle.op_eq ops s h k ∧
        Vehicle.op_eq ops (Vehicle.move_assign s h2 h) k h2 = Vehicle.op_eq ops s k h) ∧
    (s.obj h2 = ⟨0, .null_vtable⟩ → Vehicle.op_eq ops s h h2 = .ok true →
      Vehicle.op_eq ops (Vehicle.move_assign s h2 h) h2 h2 = .ok true) := by
  refine ⟨⟨move_ctor_obj_this s h2 h, rfl, fun k hk hk2 => ⟨?_, ?_⟩⟩,
    ⟨move_assign_obj_this s h2 h, rfl, fun k hk hk2 => ⟨?_, ?_⟩⟩, fun hd he => ?_⟩
  · exact op_eq_congr ops _ _ _ _ _ _ rfl (move_ctor_obj_this s h2 h)
      (move_ctor_obj_other s h2 h k hk2 hk)
  · exact op_eq_congr ops _ _ _ _ _ _ rfl (move_ctor_obj_other s h2 h k hk2 hk)
      (move_ctor_obj_this s h2 h)
  · exact op_eq_congr ops _ _ _ _ _ _ rfl (move_assign_obj_this s h2 h)
      (move_assign_obj_other s h2 h k hk2 hk)
  · exact op_eq_congr ops _ _ _ _ _ _ rfl (move_assign_obj_other s h2 h k hk2 hk)
      (move_assign_obj_this s h2 h)
  · have hv : (s.obj h).vptr_ = .null_vtable := by
      by_contra hc
      have hc2 : (s.obj h).vptr_ ≠ (s.obj h2).vptr_ := by
        rw [hd]
        exact hc
      simp [Vehicle.op_eq, hc2] at he
    apply op_eq_of_null_vtable <;> rw [move_assign_obj_this] <;> exact hv

/-- C6 at `Boat`: handle `3` moved from handle `1` (which owns `Boat{1}`) compares
equal to handle `2`, another `Vehicle(Boat{1})`, after either kind of move. -/
theorem C6_move_transfers_witness :
    Vehicle.op_eq Stored.ops (Vehicle.move_ctor two_boats 3 1) 3 2 = .ok true ∧
    Vehicle.op_eq Stored.ops (Vehicle.move_assign two_boats 3 1) 3 2 = .ok true := by
  have h := C6_move_transfers Stored.ops two_boats 1 3
  have e : Vehicle.op_eq Stored.ops two_boats 1 2 = .ok true := rfl
  exact ⟨((h.1.2.2 2 (by decide) (by decide)).1).trans e,
    ((h.2.1.2.2 2 (by decide) (by decide)).1).trans e⟩

/-- C7: copy construction of `c` from another handle `h` that owns a value `y` of
type `T` (as `Vehicle(x)` does), when the copy of `y` equals `y`: the
constructor returns, `c` is bound to the table of `h`, `c == h` is true, and `h`
is the same handle owning the same value. -/
theorem C7_copy_ctor_equal [DecidableEq K] [DecidableEq U] (s : State K U El) (c h : K)
    (T : U) (y : El T) (hne : c ≠ h) (hh : Vehicle.holds s.heap (s.obj h) T y)
    (ha : 0 < s.heap.avail) (hcopy : (ops T).eq ((ops T).copy y) y = true) :
    ∃ s', Vehicle.copy_ctor ops s c h = .ok s' ∧
      (s'.obj c).vptr_ = (s'.obj h).vptr_ ∧
      Vehicle.op_eq ops s' c h = .ok true ∧
      s'.obj h = s.obj h ∧ Vehicle.holds s'.heap (s'.obj h) T y := by
  have hc := holds_fresh s c T ((ops T).copy y) (s.heap.avail - 1)
  have hh' := holds_after_alloc s c h ⟨T, (ops T).copy y⟩ (s.heap.avail - 1)
    ⟨s.heap.cells.length + 1, .vtable_for_type T⟩ T y hne.symm hh
  refine ⟨_, copy_ctor_of_holds ops s c h T y hh ha, ?_, ?_, ?_, hh'⟩
  · rw [hc.1, hh'.1]
  · rw [op_eq_of_holds ops _ c h T _ y hc hh', hcopy]
  · exact Function.update_noteq hne.symm _ _

/-- C7 at `Boat`: handle `3` copy-constructed from handle `1`. -/
theorem C7_copy_ctor_equal_witness :
    ∃ s', Vehicle.copy_ctor Stored.ops two_boats 3 1 = .ok s' ∧
      (s'.obj 3).vptr_ = (s'.obj 1).vptr_ ∧
      Vehicle.op_eq Stored.ops s' 3 1 = .ok true ∧
      s'.obj 1 = two_boats.obj 1 ∧
      Vehicle.holds s'.heap (s'.obj 1) .boat (⟨1⟩ : Boat) :=
  C7_copy_ctor_equal Stored.ops two_boats 3 1 .boat (⟨1⟩ : Boat) (by decide) ⟨rfl, rfl⟩
    (by decide) rfl

/-- C8, evaluated at the failing input
`Vehicle v1{Boat{}}; Vehicle v2{std::move(v1)}; v1.move(coordinates{5});`
(and the same with `Vehicle v2; v2 = std::move(v1);`): the moved-from `v1` is
still bound to the table of `Boat`, so `move` casts the null payload to `Boat*`
and calls through it. -/
theorem C8_moved_from_move_faults :
    ∃ s, Vehicle.value_ctor Stored.ops (start 1) 1 .boat ({ pos := 0 } : Boat) = .ok s ∧
      Vehicle.move Stored.ops (Vehicle.move_ctor s 2 1) 1 ⟨5⟩ = .error .null_deref ∧
      Vehicle.move Stored.ops (Vehicle.move_assign (Vehicle.default_ctor s 2) 2 1) 1 ⟨5⟩
        = .error .null_deref := by
  refine ⟨_, value_ctor_ok Stored.ops (start 1) 1 .boat _ (by decide), ?_, ?_⟩ <;> rfl

/-- C9: self copy-assignment `h = h` of a handle that is empty or owns a value,
when each stored type's equality is reflexive.  With `k` a copy of `h` taken
before: the assignment returns, `h` is bound to the table it had, `h == k` is
true, and `h` is again empty or owns a value (the copy of the one it owned). -/
theorem C9_self_copy_assign [DecidableEq K] [DecidableEq U] (s : State K U El) (h k : K)
    (hne : k ≠ h) (ha : 2 ≤ s.heap.avail)
    (hh : s.obj h = ⟨0, .null_vtable⟩ ∨ ∃ T y, Vehicle.holds s.heap (s.obj h) T y)
    (hrefl : ∀ (T : U) (v : El T), (ops T).eq v v = true) :
    ∃ s1 s2, Vehicle.copy_ctor ops s k h = .ok s1 ∧
      Vehicle.copy_assign ops s1 h h = .ok s2 ∧
      (s2.obj h).vptr_ = (s.obj h).vptr_ ∧
      Vehicle.op_eq ops s2 h k = .ok true ∧
      (s.obj h = ⟨0, .null_vtable⟩ → s2.obj h = ⟨0, .null_vtable⟩) ∧
      ∀ (T : U) (y : El T), Vehicle.holds s.heap (s.obj h) T y →
        Vehicle.holds s2.heap (s2.obj h) T ((ops T).copy y) := by
  rcases hh with hh | ⟨T, y, hh⟩
  · have hv : (s.obj h).vptr_ = .null_vtable := by rw [hh]
    have hv1 : (Function.update s.obj k (⟨0, .null_vtable⟩ : Vehicle U) h).vptr_
        = .null_vtable := by
      rw [Function.update_noteq hne.symm]
      exact hv
    refine ⟨_, _, copy_ctor_of_null_vtable ops s k h hv,
      copy_assign_of_null_vtable ops _ h h hv1, ?_, ?_, ?_, ?_⟩
    · simp [hv]
    · apply op_eq_of_null_vtable
      · simp
      · simp [Function.update_noteq hne]
    · intro _
      simp
    · intro T y hy
      rw [hy.1] at hv
      cases hv
  · have hk1 := holds_fresh s k T ((ops T).copy y) (s.heap.avail - 1)
    have hh1 := holds_after_alloc s k h ⟨T, (ops T).copy y⟩ (s.heap.avail - 1)
      ⟨s.heap.cells.length + 1, .vtable_for_type T⟩ T y hne.symm hh
    have e1 := copy_ctor_of_holds ops s k h T y hh (by omega)
    generalize hs1 : ({ heap := { cells := s.heap.cells ++ [some ⟨T, (ops T).copy y⟩],
                                  avail := s.heap.avail - 1 },
                        obj := Function.update s.obj k
                          ⟨s.heap.cells.length + 1, .vtable_for_type T⟩ } : State K U El) = s1
      at e1
    have hk1' : Vehicle.holds s1.heap (s1.obj k) T ((ops T).copy y) := by
      rw [← hs1]
      exact hk1
    have hh1' : Vehicle.holds s1.heap (s1.obj h) T y := by
      rw [← hs1]
      exact hh1
    have hav1 : 0 < s1.heap.avail := by
      rw [← hs1]
      show 0 < s.heap.avail - 1
      omega
    have hh2 := holds_fresh s1 h T ((ops T).copy y) (s1.heap.avail - 1)
    have hk2 := holds_after_alloc s1 h k ⟨T, (ops T).copy y⟩ (s1.heap.avail - 1)
      ⟨s1.heap.cells.length + 1, .vtable_for_type T⟩ T ((ops T).copy y) hne hk1'
    refine ⟨s1, _, e1, copy_assign_of_holds ops s1 h h T y hh1' hav1, ?_, ?_, ?_, ?_⟩
    · rw [hh2.1, hh.1]
    · rw [op_eq_of_holds ops _ h k T _ _ hh2 hk2, hrefl]
    · intro e
      have := hh.1
      rw [e] at this
      cases this
    · intro T' y' hy
      have hT : vtable.vtable_for_type T' = vtable.vtable_for_type T := hy.1.symm.trans hh.1
      cases hT
      have hyy : y' = y := by
        have := hy.2.symm.trans hh.2
        simpa using this
      subst hyy
      exact hh2

/-- C9 at `Boat` and at the empty handle. -/
theorem C9_self_copy_assign_witness :
    (∃ s1 s2, Vehicle.copy_ctor Stored.ops two_boats 3 1 = .ok s1 ∧
      Vehicle.copy_assign Stored.ops s1 1 1 = .ok s2 ∧
      (s2.obj 1).vptr_ = (two_boats.obj 1).vptr_ ∧
      Vehicle.op_eq Stored.ops s2 1 3 = .ok true) ∧
    (∃ s1 s2, Vehicle.copy_ctor Stored.ops two_boats 3 4 = .ok s1 ∧
      Vehicle.copy_assign Stored.ops s1 4 4 = .ok s2 ∧
      (s2.obj 4).vptr_ = (two_boats.obj 4).vptr_ ∧
      Vehicle.op_eq Stored.ops s2 4 3 = .ok true) := by
  obtain ⟨s1, s2, e1, e2, e3, e4, -⟩ := C9_self_copy_assign Stored.ops two_boats 1 3
    (by decide) (by decide) (Or.inr ⟨.boat, (⟨1⟩ : Boat), rfl, rfl⟩)
    (fun T v => by cases T; simp [Stored.ops, Boat.storable, Boat.eq])
  obtain ⟨r1, r2, f1, f2, f3, f4, -⟩ := C9_self_copy_assign Stored.ops two_boats 4 3
    (by decide) (by decide) (Or.inl rfl)
    (fun T v => by cases T; simp [Stored.ops, Boat.storable, Boat.eq])
  exact ⟨⟨s1, s2, e1, e2, e3, e4⟩, ⟨r1, r2, f1, f2, f3, f4⟩⟩

/-- C10: after `Vehicle v; v.move(c);` nothing has changed: the call returns the
state it was given, `v` has a null payload and the table of `null_vtable()`,
and `v == w` is true for a freshly default-constructed `w`. -/
theorem C10_move_on_empty [DecidableEq K] [DecidableEq U] (s : State K U El) (v w : K)
    (c : coordinates) :
    Vehicle.move ops (Vehicle.default_ctor s v) v c = .ok (Vehicle.default_ctor s v) ∧
    (Vehicle.default_ctor s v).obj v = ⟨0, .null_vtable⟩ ∧
    Vehicle.op_eq ops (Vehicle.default_ctor (Vehicle.default_ctor s v) w) v w = .ok true := by
  refine ⟨?_, ?_, ?_⟩
  · apply move_of_null_vtable
    simp [Vehicle.default_ctor]
  · simp [Vehicle.default_ctor]
  · apply op_eq_of_null_vtable
    · by_cases hvw : v = w
      · subst hvw
        simp [Vehicle.default_ctor]
      · simp [Vehicle.default_ctor, Function.update_noteq hvw]
    · simp [Vehicle.default_ctor]

/-- C11: copying an empty handle yields an empty handle.  If `e` is a
default-constructed handle, copy construction of `c` from `e` returns with `c`
having a null payload and the table of `null_vtable()`, and `d = e` returns with
`d` having a null payload and that table, whatever `d` was before; neither
touches the free store. -/
theorem C11_copy_of_empty [DecidableEq K] [DecidableEq U] (s : State K U El) (c d e : K)
    (he : s.obj e = ⟨0, .null_vtable⟩) :
    (∃ s', Vehicle.copy_ctor ops s c e = .ok s' ∧ s'.obj c = ⟨0, .null_vtable⟩ ∧
      s'.heap = s.heap) ∧
    (∃ s', Vehicle.copy_assign ops s d e = .ok s' ∧ s'.obj d = ⟨0, .null_vtable⟩ ∧
      s'.heap = s.heap) := by
  have hv : (s.obj e).vptr_ = .null_vtable := by rw [he]
  exact ⟨⟨_, copy_ctor_of_null_vtable ops s c e hv, Function.update_same _ _ _, rfl⟩,
    ⟨_, copy_assign_of_null_vtable ops s d e hv, Function.update_same _ _ _, rfl⟩⟩

/-- C11 on `VehicleT v1{Boat{}}; VehicleT v2; v1 = v2;` of `generic_test`: handle `1`
owns a `Boat`, handle `3` is empty. -/
theorem C11_copy_of_empty_witness :
    (∃ s', Vehicle.copy_ctor Stored.ops two_boats 4 3 = .ok s' ∧
      s'.obj 4 = ⟨0, .null_vtable⟩ ∧ s'.heap = two_boats.heap) ∧
    (∃ s', Vehicle.copy_assign Stored.ops two_boats 1 3 = .ok s' ∧
      s'.obj 1 = ⟨0, .null_vtable⟩ ∧ s'.heap = two_boats.heap) :=
  C11_copy_of_empty Stored.ops two_boats 4 1 3 rfl

/-- C12: the domain operation is dispatched to the stored type.  After
`Vehicle v(x); v.move(c);` the handle is bound to the table of `T` and owns the
value `T::move` gives on the stored `x`; for a `Boat` `b`, `v` then compares equal
to a new `Vehicle(Boat{c.x})`, and `Boat{c.x}` is what `b.move(c)` leaves. -/
theorem C12_dispatch :
    (∀ (K U : Type) [DecidableEq K] [DecidableEq U] (El : U → Type)
      (ops : (T : U) → Storable (El T)) (s : State K U El) (v : K) (T : U) (x : El T)
      (c : coordinates), 0 < s.heap.avail →
      ∃ s1 s2, Vehicle.value_ctor ops s v T x = .ok s1 ∧ Vehicle.move ops s1 v c = .ok s2 ∧
        (s2.obj v).vptr_ = .vtable_for_type T ∧
        Vehicle.holds s2.heap (s2.obj v) T ((ops T).move ((ops T).mv x) c) ∧
        s2.heap.avail = s.heap.avail - 1) ∧
    (∀ (s : State Nat Stored Stored.El) (v w : Nat) (b : Boat) (c : coordinates),
      v ≠ w → 2 ≤ s.heap.avail →
      ∃ s1 s2 s3, Vehicle.value_ctor Stored.ops s v .boat b = .ok s1 ∧
        Vehicle.move Stored.ops s1 v c = .ok s2 ∧
        (s2.obj v).vptr_ = .vtable_for_type .boat ∧
        Vehicle.value_ctor Stored.ops s2 w .boat ({ pos := c.x } : Boat) = .ok s3 ∧
        Vehicle.op_eq Stored.ops s3 v w = .ok true ∧
        Boat.move b c = { pos := c.x }) := by
  have gen : ∀ (K U : Type) [DecidableEq K] [DecidableEq U] (El : U → Type)
      (ops : (T : U) → Storable (El T)) (s : State K U El) (v : K) (T : U) (x : El T)
      (c : coordinates), 0 < s.heap.avail →
      ∃ s1 s2, Vehicle.value_ctor ops s v T x = .ok s1 ∧ Vehicle.move ops s1 v c = .ok s2 ∧
        (s2.obj v).vptr_ = .vtable_for_type T ∧
        Vehicle.holds s2.heap (s2.obj v) T ((ops T).move ((ops T).mv x) c) ∧
        s2.heap.avail = s.heap.avail - 1 := by
    intro K U _ _ El ops s v T x c hav
    obtain ⟨s1, e1, h1, hav1, -⟩ := value_ctor_holds ops s v T x hav
    refine ⟨s1, _, e1, move_of_holds ops s1 v c T _ h1, h1.1,
      ⟨h1.1, Heap.lookup_store_self _ _ _ _ h1.2⟩, ?_⟩
    rw [← hav1]
    cases hb : (s1.obj v).body_ <;> rfl
  refine ⟨gen, ?_⟩
  intro s v w b c hne hav
  obtain ⟨s1, s2, e1, e2, hv, hh, hav2⟩ := gen Nat Stored Stored.El Stored.ops s v .boat b c
    (by omega)
  obtain ⟨s3, e3, hw, -, hfr⟩ := value_ctor_holds Stored.ops s2 w .boat ({ pos := c.x } : Boat)
    (by omega)
  refine ⟨s1, s2, s3, e1, e2, hv, e3, ?_, rfl⟩
  rw [op_eq_of_holds Stored.ops s3 v w .boat _ _ (hfr v .boat _ hne hh) hw]
  simp [Stored.ops, Boat.storable, Boat.eq, Boat.move]

/-- C12 at `Boat{1}` moved to `coordinates{5}`. -/
theorem C12_dispatch_witness :
    ∃ s1 s2 s3, Vehicle.value_ctor Stored.ops (start 2) 1 .boat (⟨1⟩ : Boat) = .ok s1 ∧
      Vehicle.move Stored.ops s1 1 ⟨5⟩ = .ok s2 ∧
      (s2.obj 1).vptr_ = .vtable_for_type .boat ∧
      Vehicle.value_ctor Stored.ops s2 2 .boat (⟨5⟩ : Boat) = .ok s3 ∧
      Vehicle.op_eq Stored.ops s3 1 2 = .ok true ∧
      Boat.move ⟨1⟩ ⟨5⟩ = ⟨5⟩ :=
  C12_dispatch.2 (start 2) 1 2 ⟨1⟩ ⟨5⟩ (by decide) (by decide)

/-- C17: self move assignment `h = std::move(h)` leaves the whole state as it
was: the payload and table of `h`, every other handle, and the free store. -/
theorem C17_self_move_assign [DecidableEq K] (s : State K U El) (h : K) :
    Vehicle.move_assign s h h = s ∧
    (Vehicle.move_assign s h h).obj h = s.obj h ∧
    ((Vehicle.move_assign s h h).obj h).body_ = (s.obj h).body_ ∧
    ((Vehicle.move_assign s h h).obj h).vptr_ = (s.obj h).vptr_ := by
  have e : Vehicle.move_assign s h h = s := by
    have ho : (Vehicle.move_assign s h h).obj = s.obj := by
      funext k
      by_cases hk : k = h
      · subst hk
        exact move_assign_obj_this s k k
      · exact move_assign_obj_other s h h k hk hk
    cases s
    simp only [Vehicle.move_assign] at ho ⊢
    rw [ho]
  exact ⟨e, by rw [e], by rw [e], by rw [e]⟩

/-- C14, evaluated at the failing inputs `VehicleT v(Boat{}); v = VehicleT(Boat{});`
(handle `1` is `v`, handle `2` the temporary, destroyed after the assignment) and
`VehicleT v1{Boat{1}}; VehicleT v2{Boat{2}}; v1 = v2;`: the payload the
destination owned, at address `1`, is still live after the assignment and no
handle points to it; destroying the destination afterwards does not release it. -/
theorem C14_assignment_leaks :
    (∃ s1 s2 s3 s4, Vehicle.value_ctor Stored.ops (start 2) 1 .boat ({ pos := 0 } : Boat) = .ok s1 ∧
      Vehicle.value_ctor Stored.ops s1 2 .boat ({ pos := 0 } : Boat) = .ok s2 ∧
      Vehicle.dtor (Vehicle.move_assign s2 1 2) 2 = .ok s3 ∧
      s3.leaked 1 ∧ s3.heap = s2.heap ∧
      Vehicle.dtor s3 1 = .ok s4 ∧ s4.leaked 1) ∧
    (∃ s1 s2 s3, Vehicle.value_ctor Stored.ops (start 3) 1 .boat (⟨1⟩ : Boat) = .ok s1 ∧
      Vehicle.value_ctor Stored.ops s1 2 .boat (⟨2⟩ : Boat) = .ok s2 ∧
      Vehicle.copy_assign Stored.ops s2 1 2 = .ok s3 ∧
      s3.leaked 1) := by
  refine ⟨⟨_, _, _, _, value_ctor_ok Stored.ops (start 2) 1 .boat _ (by decide),
      value_ctor_ok Stored.ops _ 2 .boat _ (by decide), rfl, ⟨rfl, ?_⟩, rfl, rfl, ⟨rfl, ?_⟩⟩,
    ⟨_, _, _, value_ctor_ok Stored.ops (start 3) 1 .boat _ (by decide),
      value_ctor_ok Stored.ops _ 2 .boat _ (by decide),
      copy_assign_of_holds Stored.ops _ 1 2 .boat (⟨2⟩ : Boat) ⟨?_, rfl⟩ (by decide),
      ⟨rfl, ?_⟩⟩⟩
  · intro k
    simp only [Vehicle.move_assign, start, Function.update_apply]
    split_ifs <;> simp
  · intro k
    simp only [Vehicle.move_assign, start, Function.update_apply]
    split_ifs <;> simp
  · simp [start]
  · intro k
    simp only [start, Function.update_apply]
    split_ifs <;> simp

/-- What a returning copy constructor has written: `this` is bound to the table
of `x`, with a null payload when that table is the empty one. -/
theorem copy_ctor_shape [DecidableEq K] [DecidableEq U] (s s' : State K U El) (this x : K)
    (h : Vehicle.copy_ctor ops s this x = .ok s') :
    ∃ p, s'.obj = Function.update s.obj this ⟨p, (s.obj x).vptr_⟩ ∧
      ((s.obj x).vptr_ = .null_vtable → p = 0) := by
  unfold Vehicle.copy_ctor at h
  cases hc : vtable.clone ops (s.obj x).vptr_ s.heap (s.obj x) with
  | error e => simp [hc, bind, Except.bind] at h
  | ok r =>
    obtain ⟨hp, p⟩ := r
    simp only [hc, bind, Except.bind, Except.ok.injEq] at h
    subst h
    refine ⟨p, rfl, fun hv => ?_⟩
    rw [hv] at hc
    simp only [vtable.clone, Except.ok.injEq, Prod.mk.injEq] at hc
    exact hc.2.symm

/-- What a returning copy assignment has written: the same as the copy
constructor, on the destination. -/
theorem copy_assign_shape [DecidableEq K] [DecidableEq U] (s s' : State K U El) (this x : K)
    (h : Vehicle.copy_assign ops s this x = .ok s') :
    ∃ p, s'.obj = Function.update s.obj this ⟨p, (s.obj x).vptr_⟩ ∧
      ((s.obj x).vptr_ = .null_vtable → p = 0) := by
  unfold Vehicle.copy_assign at h
  dsimp only at h
  cases hc : Vehicle.copy_ctor ops
      ({ heap := s.heap, obj := fun k => match k with | none => {} | some k => s.obj k } :
        State (Option K) U El) none (some x) with
  | error e => simp [hc, bind, Except.bind] at h
  | ok s1 =>
    obtain ⟨p, hp, hnull⟩ := copy_ctor_shape ops _ s1 none (some x) hc
    simp only [hc, bind, Except.bind, Vehicle.dtor] at h
    have hsrc := move_assign_obj_src s1 (some this) none (Option.some_ne_none this)
    have hs1n : s1.obj none = ⟨p, (s.obj x).vptr_⟩ := by
      rw [hp]
      simp
    rw [hsrc, hs1n] at h
    have hd : vtable.destroy (s.obj x).vptr_ (Vehicle.move_assign s1 (some this) none).heap
        ({ body_ := 0, vptr_ := (s.obj x).vptr_ } : Vehicle U)
        = .ok (Vehicle.move_assign s1 (some this) none).heap := by
      cases (s.obj x).vptr_ <;> simp [vtable.destroy, Heap.delete]
    simp only [hd, Except.ok.injEq] at h
    subst h
    refine ⟨p, ?_, hnull⟩
    funext k
    by_cases hk : k = this
    · subst hk
      simp [move_assign_obj_this, hs1n]
    · simp only [Function.update_noteq hk]
      rw [move_assign_obj_other _ _ _ _ (fun e => hk (Option.some.inj e)) (Option.some_ne_none k),
        hp]
      simp

/-- The domain operation writes no handle. -/
theorem move_obj [DecidableEq U] (s s' : State K U El) (this : K) (c : coordinates)
    (h : Vehicle.move ops s this c = .ok s') : s'.obj = s.obj := by
  unfold Vehicle.move at h
  cases hm : vtable.move ops (s.obj this).vptr_ s.heap (s.obj this) c with
  | error e => simp [hm, bind, Except.bind] at h
  | ok hp =>
    simp only [hm, bind, Except.bind, Except.ok.injEq] at h
    subst h
    rfl

/-- The converting constructor binds `this` to the table of `T` and writes no other handle. -/
theorem value_ctor_shape [DecidableEq K] (s s' : State K U El) (this : K) (T : U) (x : El T)
    (h : Vehicle.value_ctor ops s this T x = .ok s') :
    ∃ p, s'.obj = Function.update s.obj this ⟨p, .vtable_for_type T⟩ := by
  unfold Vehicle.value_ctor at h
  cases hn : s.heap.new ⟨T, (ops T).mv x⟩ with
  | error e => simp [hn, bind, Except.bind] at h
  | ok r =>
    obtain ⟨hp, p⟩ := r
    simp only [hn, bind, Except.bind, Except.ok.injEq] at h
    subst h
    exact ⟨p, rfl⟩

/-- C15: the empty-table invariant.  In every state reached from
default-initialised handles by default construction, value construction, copy
construction, move construction, copy assignment, move assignment and the
domain operation, a handle bound to the table of `null_vtable()` has a null
payload. -/
theorem C15_empty_table_invariant [DecidableEq K] [DecidableEq U] (s : State K U El)
    (hr : Reachable ops s) (k : K) (hk : (s.obj k).vptr_ = .null_vtable) :
    (s.obj k).body_ = 0 := by
  induction hr generalizing k with
  | init h => rfl
  | default_ctor this _ ih =>
    by_cases e : k = this
    · subst e
      simp [Vehicle.default_ctor]
    · simp only [Vehicle.default_ctor, Function.update_noteq e] at hk ⊢
      exact ih k hk
  | value_ctor this T x _ hs ih =>
    obtain ⟨p, hp⟩ := value_ctor_shape ops _ _ this T x hs
    rw [hp] at hk ⊢
    by_cases e : k = this
    · subst e
      simp at hk
    · simp only [Function.update_noteq e] at hk ⊢
      exact ih k hk
  | copy_ctor this x _ hs ih =>
    obtain ⟨p, hp, hn⟩ := copy_ctor_shape ops _ _ this x hs
    rw [hp] at hk ⊢
    by_cases e : k = this
    · subst e
      simp only [Function.update_same] at hk ⊢
      exact hn hk
    · simp only [Function.update_noteq e] at hk ⊢
      exact ih k hk
  | move_ctor this x _ ih =>
    by_cases e : k = this
    · subst e
      rw [move_ctor_obj_this] at hk ⊢
      exact ih x hk
    · by_cases e2 : k = x
      · subst e2
        rw [move_ctor_obj_src _ _ _ (fun h => e h.symm)]
      · rw [move_ctor_obj_other _ _ _ _ e e2] at hk ⊢
        exact ih k hk
  | copy_assign this x _ hs ih =>
    obtain ⟨p, hp, hn⟩ := copy_assign_shape ops _ _ this x hs
    rw [hp] at hk ⊢
    by_cases e : k = this
    · subst e
      simp only [Function.update_same] at hk ⊢
      exact hn hk
    · simp only [Function.update_noteq e] at hk ⊢
      exact ih k hk
  | move_assign this x _ ih =>
    by_cases e : k = this
    · subst e
      rw [move_assign_obj_this] at hk ⊢
      exact ih x hk
    · by_cases e2 : k = x
      · subst e2
        rw [move_assign_obj_src _ _ _ (fun h => e h.symm)]
      · rw [move_assign_obj_other _ _ _ _ e e2] at hk ⊢
        exact ih k hk
  | move this c _ hs ih =>
    rw [move_obj ops _ _ this c hs] at hk ⊢
    exact ih k hk

/-- C15 on `Vehicle v1{Boat{}}; Vehicle v2; v1 = v2;` followed by `Vehicle v3{std::move(v1)};`:
the handles `1` and `3` then name the empty table and have a null payload. -/
theorem C15_empty_table_invariant_witness :
    ∃ s1 s2, Vehicle.value_ctor Stored.ops (start 1) 1 .boat ({ pos := 0 } : Boat) = .ok s1 ∧
      Vehicle.copy_assign Stored.ops s1 1 2 = .ok s2 ∧
      ((Vehicle.move_ctor s2 3 1).obj 3).vptr_ = .null_vtable ∧
      ((Vehicle.move_ctor s2 3 1).obj 3).body_ = 0 ∧
      ((Vehicle.move_ctor s2 3 1).obj 1).body_ = 0 := by
  have e1 := value_ctor_ok Stored.ops (start 1) 1 .boat ({ pos := 0 } : Boat) (by decide)
  have e2 := copy_assign_of_null_vtable Stored.ops
    ({ heap := { cells := (start 1).heap.cells ++ [some ⟨.boat, Stored.ops .boat |>.mv { pos := 0 }⟩],
                 avail := (start 1).heap.avail - 1 },
       obj := Function.update (start 1).obj 1 ⟨(start 1).heap.cells.length + 1, .vtable_for_type .boat⟩ } :
      State Nat Stored Stored.El) 1 2 rfl
  have hr : Reachable Stored.ops (Vehicle.move_ctor _ 3 1) :=
    Reachable.move_ctor 3 1 (Reachable.copy_assign 1 2
      (Reachable.value_ctor 1 .boat _ (Reachable.init _) e1) e2)
  exact ⟨_, _, e1, e2, rfl, C15_empty_table_invariant Stored.ops _ hr 3 rfl,
    C15_empty_table_invariant Stored.ops _ hr 1 rfl⟩

/-- With the budget used up, `new` throws `std::bad_alloc`. -/
theorem new_full (h : Heap El) (o : Obj El) (ha : h.avail = 0) :
    h.new o = .error .bad_alloc := by
  simp [Heap.new, ha]

/-- Copy construction from an owning handle throws when nothing can be allocated. -/
theorem copy_ctor_of_holds_full [DecidableEq K] [DecidableEq U] (s : State K U El) (this x : K)
    (T : U) (a : El T) (hx : Vehicle.holds s.heap (s.obj x) T a) (ha : s.heap.avail = 0) :
    Vehicle.copy_ctor ops s this x = .error .bad_alloc := by
  simp [Vehicle.copy_ctor, hx.1, vtable.clone, Heap.deref_of_lookup _ _ _ _ hx.2,
    new_full _ _ ha, bind, Except.bind]

/-- Copy assignment from an owning handle throws when nothing can be allocated. -/
theorem copy_assign_of_holds_full [DecidableEq K] [DecidableEq U] (s : State K U El)
    (this x : K) (T : U) (a : El T) (hx : Vehicle.holds s.heap (s.obj x) T a)
    (ha : s.heap.avail = 0) :
    Vehicle.copy_assign ops s this x = .error .bad_alloc := by
  unfold Vehicle.copy_assign
  dsimp only
  rw [copy_ctor_of_holds_full ops _ none (some x) T a hx ha]
  rfl

/-- A handle owns at most one value. -/
theorem holds_unique {h : Heap El} {v : Vehicle U} {T T' : U} {a : El T} {a' : El T'}
    (h1 : Vehicle.holds h v T a) (h2 : Vehicle.holds h v T' a') :
    ∃ e : T = T', e ▸ a = a' := by
  have hT : vtable.vtable_for_type T = vtable.vtable_for_type T' := h1.1.symm.trans h2.1
  cases hT
  have : a = a' := by
    have := h1.2.symm.trans h2.2
    simpa using this
  exact ⟨rfl, this⟩

/-- Every handle of a state built by default construction, value construction
and copying is empty or owns a value. -/
theorem built_valid [DecidableEq K] [DecidableEq U] (s : State K U El) (hb : Built ops s)
    (k : K) :
    s.obj k = ⟨0, .null_vtable⟩ ∨ ∃ T y, Vehicle.holds s.heap (s.obj k) T y := by
  induction hb generalizing k with
  | init h => exact Or.inl rfl
  | default_ctor this _ ih =>
    by_cases e : k = this
    · subst e
      left
      simp [Vehicle.default_ctor]
    · simp only [Vehicle.default_ctor, Function.update_noteq e]
      exact ih k
  | @value_ctor s0 s1 this T x _ hs ih =>
    have hav : 0 < s0.heap.avail := by
      by_contra h0
      have h0' : s0.heap.avail = 0 := by omega
      simp [Vehicle.value_ctor, new_full _ _ h0', bind, Except.bind] at hs
    rw [value_ctor_ok ops s0 this T x hav] at hs
    cases hs
    by_cases e : k = this
    · subst e
      exact Or.inr ⟨T, _, holds_fresh s0 k T _ _⟩
    · rcases ih k with h | ⟨T', y, h⟩
      · left
        simp only [Function.update_noteq e]
        exact h
      · exact Or.inr ⟨T', y, holds_after_alloc s0 this k _ _ _ T' y e h⟩
  | @copy_ctor s0 s1 this x _ hs ih =>
    rcases ih x with hx | ⟨T, y, hx⟩
    · have hv : (s0.obj x).vptr_ = .null_vtable := by rw [hx]
      rw [copy_ctor_of_null_vtable ops s0 this x hv] at hs
      cases hs
      by_cases e : k = this
      · subst e
        left
        simp
      · simp only [Function.update_noteq e]
        exact ih k
    · have hav : 0 < s0.heap.avail := by
        by_contra h0
        have h0' : s0.heap.avail = 0 := by omega
        rw [copy_ctor_of_holds_full ops s0 this x T y hx h0'] at hs
        cases hs
      rw [copy_ctor_of_holds ops s0 this x T y hx hav] at hs
      cases hs
      by_cases e : k = this
      · subst e
        exact Or.inr ⟨T, _, holds_fresh s0 k T _ _⟩
      · rcases ih k with h | ⟨T', y', h⟩
        · left
          simp only [Function.update_noteq e]
          exact h
        · exact Or.inr ⟨T', y', holds_after_alloc s0 this k _ _ _ T' y' e h⟩
  | @copy_assign s0 s1 this x _ hs ih =>
    rcases ih x with hx | ⟨T, y, hx⟩
    · have hv : (s0.obj x).vptr_ = .null_vtable := by rw [hx]
      rw [copy_assign_of_null_vtable ops s0 this x hv] at hs
      cases hs
      by_cases e : k = this
      · subst e
        left
        simp
      · simp only [Function.update_noteq e]
        exact ih k
    · have hav : 0 < s0.heap.avail := by
        by_contra h0
        have h0' : s0.heap.avail = 0 := by omega
        rw [copy_assign_of_holds_full ops s0 this x T y hx h0'] at hs
        cases hs
      rw [copy_assign_of_holds ops s0 this x T y hx hav] at hs
      cases hs
      by_cases e : k = this
      · subst e
        exact Or.inr ⟨T, _, holds_fresh s0 k T _ _⟩
      · rcases ih k with h | ⟨T', y', h⟩
        · left
          simp only [Function.update_noteq e]
          exact h
        · exact Or.inr ⟨T', y', holds_after_alloc s0 this k _ _ _ T' y' e h⟩

/-- On handles that are empty or own a value, `==` returns, and it is true
exactly when both are empty or both own equal values of one type. -/
theorem op_eq_valid [DecidableEq U] (s : State K U El) (a b : K)
    (ha : s.obj a = ⟨0, .null_vtable⟩ ∨ ∃ T y, Vehicle.holds s.heap (s.obj a) T y)
    (hb : s.obj b = ⟨0, .null_vtable⟩ ∨ ∃ T y, Vehicle.holds s.heap (s.obj b) T y) :
    (∃ r, Vehicle.op_eq ops s a b = .ok r) ∧
    (Vehicle.op_eq ops s a b = .ok true ↔
      ((s.obj a).vptr_ = .null_vtable ∧ (s.obj b).vptr_ = .null_vtable) ∨
      ∃ T y z, Vehicle.holds s.heap (s.obj a) T y ∧ Vehicle.holds s.heap (s.obj b) T z ∧
        (ops T).eq y z = true) := by
  rcases ha with ha | ⟨T, y, ha⟩ <;> rcases hb with hb | ⟨T', z, hb⟩
  · have e := op_eq_of_null_vtable ops s a b (by rw [ha]) (by rw [hb])
    exact ⟨⟨_, e⟩, fun _ => Or.inl ⟨by rw [ha], by rw [hb]⟩, fun _ => e⟩
  · have hne : (s.obj a).vptr_ ≠ (s.obj b).vptr_ := by
      rw [ha, hb.1]
      simp
    have e : Vehicle.op_eq ops s a b = .ok false := by simp [Vehicle.op_eq, hne]
    refine ⟨⟨_, e⟩, fun h => ?_, fun h => ?_⟩
    · rw [e] at h
      cases h
    · rcases h with ⟨-, h2⟩ | ⟨T1, y1, z1, h1, -, -⟩
      · rw [hb.1] at h2
        cases h2
      · rw [ha] at h1
        cases h1.1
  · have hne : (s.obj a).vptr_ ≠ (s.obj b).vptr_ := by
      rw [hb, ha.1]
      simp
    have e : Vehicle.op_eq ops s a b = .ok false := by simp [Vehicle.op_eq, hne]
    refine ⟨⟨_, e⟩, fun h => ?_, fun h => ?_⟩
    · rw [e] at h
      cases h
    · rcases h with ⟨h1, -⟩ | ⟨T1, y1, z1, -, h2, -⟩
      · rw [ha.1] at h1
        cases h1
      · rw [hb] at h2
        cases h2.1
  · by_cases hT : T = T'
    · subst hT
      have e := op_eq_of_holds ops s a b T y z ha hb
      refine ⟨⟨_, e⟩, fun h => ?_, fun h => ?_⟩
      · rw [e] at h
        exact Or.inr ⟨T, y, z, ha, hb, by simpa using h⟩
      · rcases h with ⟨h1, -⟩ | ⟨T1, y1, z1, h1, h2, h3⟩
        · rw [ha.1] at h1
          cases h1
        · obtain ⟨e1, e1'⟩ := holds_unique h1 ha
          subst e1
          obtain ⟨_, e2'⟩ := holds_unique h2 hb
          simp only at e1' e2'
          subst e1' e2'
          rw [e, h3]
    · have hne : (s.obj a).vptr_ ≠ (s.obj b).vptr_ := by
        rw [ha.1, hb.1]
        simpa using hT
      have e : Vehicle.op_eq ops s a b = .ok false := by simp [Vehicle.op_eq, hne]
      refine ⟨⟨_, e⟩, fun h => ?_, fun h => ?_⟩
      · rw [e] at h
        cases h
      · rcases h with ⟨h1, -⟩ | ⟨T1, y1, z1, h1, h2, -⟩
        · rw [ha.1] at h1
          cases h1
        · obtain ⟨e1, -⟩ := holds_unique h1 ha
          obtain ⟨e2, -⟩ := holds_unique h2 hb
          exact absurd (e1.symm.trans e2) hT

/-- C16: `operator==` is an equivalence relation on the handles of a state built
by default construction, value construction and copying, when the equality of
every stored type is one: every comparison returns, `h == h` is true, `a == b`
gives `b == a`, and `a == b` with `b == c` gives `a == c`. -/
theorem C16_equality_equivalence [DecidableEq K] [DecidableEq U] (s : State K U El)
    (hb : Built ops s)
    (hrefl : ∀ (T : U) (v : El T), (ops T).eq v v = true)
    (hsymm : ∀ (T : U) (v w : El T), (ops T).eq v w = true → (ops T).eq w v = true)
    (htrans : ∀ (T : U) (u v w : El T), (ops T).eq u v = true → (ops T).eq v w = true →
      (ops T).eq u w = true) :
    (∀ a b, ∃ r, Vehicle.op_eq ops s a b = .ok r) ∧
    (∀ h, Vehicle.op_eq ops s h h = .ok true) ∧
    (∀ a b, Vehicle.op_eq ops s a b = .ok true → Vehicle.op_eq ops s b a = .ok true) ∧
    (∀ a b c, Vehicle.op_eq ops s a b = .ok true → Vehicle.op_eq ops s b c = .ok true →
      Vehicle.op_eq ops s a c = .ok true) := by
  have hv := built_valid ops s hb
  refine ⟨fun a b => (op_eq_valid ops s a b (hv a) (hv b)).1, fun h => ?_, fun a b hab => ?_,
    fun a b c hab hbc => ?_⟩
  · refine (op_eq_valid ops s h h (hv h) (hv h)).2.mpr ?_
    rcases hv h with e | ⟨T, y, e⟩
    · exact Or.inl ⟨by rw [e], by rw [e]⟩
    · exact Or.inr ⟨T, y, y, e, e, hrefl T y⟩
  · refine (op_eq_valid ops s b a (hv b) (hv a)).2.mpr ?_
    rcases (op_eq_valid ops s a b (hv a) (hv b)).2.mp hab with ⟨h1, h2⟩ | ⟨T, y, z, h1, h2, h3⟩
    · exact Or.inl ⟨h2, h1⟩
    · exact Or.inr ⟨T, z, y, h2, h1, hsymm T y z h3⟩
  · refine (op_eq_valid ops s a c (hv a) (hv c)).2.mpr ?_
    rcases (op_eq_valid ops s a b (hv a) (hv b)).2.mp hab with ⟨h1, h2⟩ | ⟨T, y, z, h1, h2, h3⟩
    · rcases (op_eq_valid ops s b c (hv b) (hv c)).2.mp hbc with
        ⟨-, g2⟩ | ⟨T', z', w, g1, -, -⟩
      · exact Or.inl ⟨h1, g2⟩
      · rw [g1.1] at h2
        cases h2
    · rcases (op_eq_valid ops s b c (hv b) (hv c)).2.mp hbc with
        ⟨g1, -⟩ | ⟨T', z', w, g1, g2, g3⟩
      · rw [h2.1] at g1
        cases g1
      · obtain ⟨e1, e1'⟩ := holds_unique g1 h2
        subst e1
        simp only at e1'
        subst e1'
        exact Or.inr ⟨T', y, w, h1, g2, htrans T' y _ w h3 g3⟩

/-- The copy constructor makes its handle own a copy and leaves the others owning
what they owned. -/
theorem copy_ctor_holds [DecidableEq K] [DecidableEq U] (s : State K U El) (this x : K)
    (T : U) (a : El T) (hx : Vehicle.holds s.heap (s.obj x) T a) (ha : 0 < s.heap.avail) :
    ∃ s', Vehicle.copy_ctor ops s this x = .ok s' ∧
      Vehicle.holds s'.heap (s'.obj this) T ((ops T).copy a) ∧
      ∀ k T' (v : El T'), k ≠ this → Vehicle.holds s.heap (s.obj k) T' v →
        Vehicle.holds s'.heap (s'.obj k) T' v :=
  ⟨_, copy_ctor_of_holds ops s this x T a hx ha, holds_fresh s this T _ _,
    fun k _ v hk hv => holds_after_alloc s this k _ _ _ _ v hk hv⟩

/-- C16 on three handles built as `Vehicle v1{Boat{1}}; Vehicle v2{Boat{1}}; Vehicle v3{v1};`:
from `v2 == v1` and `v1 == v3` follows `v2 == v3`, and `v3 == v3`. -/
theorem C16_equality_equivalence_witness :
    ∃ s1 s2 s3, Vehicle.value_ctor Stored.ops (start 3) 1 .boat (⟨1⟩ : Boat) = .ok s1 ∧
      Vehicle.value_ctor Stored.ops s1 2 .boat (⟨1⟩ : Boat) = .ok s2 ∧
      Vehicle.copy_ctor Stored.ops s2 3 1 = .ok s3 ∧
      Vehicle.op_eq Stored.ops s3 3 3 = .ok true ∧
      Vehicle.op_eq Stored.ops s3 2 3 = .ok true := by
  obtain ⟨s1, e1, h1, a1, -⟩ := value_ctor_holds Stored.ops (start 3) 1 .boat (⟨1⟩ : Boat)
    (by decide)
  obtain ⟨s2, e2, h2, a2, f2⟩ := value_ctor_holds Stored.ops s1 2 .boat (⟨1⟩ : Boat)
    (by rw [a1]; decide)
  have h12 := f2 1 .boat _ (by decide) h1
  have hav2 : 0 < s2.heap.avail := by
    rw [a2, a1]
    decide
  obtain ⟨s3, e3, h33, f3⟩ := copy_ctor_holds Stored.ops s2 3 1 .boat _ h12 hav2
  have hb : Built Stored.ops s3 :=
    Built.copy_ctor 3 1 (Built.value_ctor 2 .boat _ (Built.value_ctor 1 .boat _
      (Built.init _) e1) e2) e3
  have hq := C16_equality_equivalence Stored.ops s3 hb
    (fun T v => by cases T; simp [Stored.ops, Boat.storable, Boat.eq])
    (fun T v w => by
      cases T
      simp only [Stored.ops, Boat.storable, Boat.eq, beq_iff_eq]
      exact fun h => h.symm)
    (fun T u v w => by
      cases T
      simp only [Stored.ops, Boat.storable, Boat.eq, beq_iff_eq]
      exact fun h g => h.trans g)
  have h21 : Vehicle.op_eq Stored.ops s3 2 1 = .ok true :=
    (op_eq_of_holds Stored.ops s3 2 1 .boat _ _ (f3 2 .boat _ (by decide) h2)
      (f3 1 .boat _ (by decide) h12)).trans rfl
  have h13 : Vehicle.op_eq Stored.ops s3 1 3 = .ok true :=
    (op_eq_of_holds Stored.ops s3 1 3 .boat _ _ (f3 1 .boat _ (by decide) h12) h33).trans rfl
  exact ⟨s1, s2, s3, e1, e2, e3, hq.2.1 3, hq.2.2.2 2 1 3 h21 h13⟩

/-- Leaving right after entering gives the state back. -/
theorem leave_enter (s : State K U El) : s.enter.leave = s := rfl

/-- A throwing copy constructor has written nothing. -/
theorem Exec.copy_ctor_throw [DecidableEq K] [DecidableEq U] (s : State K U El) (this x : K)
    (e : Fault) (h : (Exec.copy_ctor ops this x s).2 = .error e) :
    Exec.copy_ctor ops this x s = (s, .error e) := by
  unfold Exec.copy_ctor at h ⊢
  simp only [Exec.bind, Exec.read] at h ⊢
  cases hv : (s.obj x).vptr_ with
  | null_vtable =>
    simp [hv, Exec.clone, Exec.pure, Exec.write] at h
  | vtable_for_type T =>
    simp only [hv, Exec.clone, Exec.bind, Exec.deref] at h ⊢
    cases hd : s.heap.deref T (s.obj x).body_ with
    | error e1 =>
      simp only [hd] at h ⊢
      rw [h]
    | ok v =>
      simp only [hd, Exec.new] at h ⊢
      cases hn : s.heap.new ⟨T, (ops T).copy v⟩ with
      | error e1 =>
        simp only [hn] at h ⊢
        rw [h]
      | ok r =>
        simp [hn, Exec.write] at h

/-- Step-by-step `clone` is `clone`, and a throw leaves the state. -/
theorem Exec.clone_agrees [DecidableEq U] (s : State K U El) (vt : vtable U)
    (self : Vehicle U) :
    Exec.clone ops vt self s =
      match vtable.clone ops vt s.heap self with
      | .ok (h, p) => ({ s with heap := h }, .ok p)
      | .error e => (s, .error e) := by
  cases vt with
  | null_vtable => rfl
  | vtable_for_type T =>
    cases hd : s.heap.deref T self.body_ with
    | error e1 =>
      have hR : vtable.clone ops (.vtable_for_type T) s.heap self = .error e1 := by
        simp [vtable.clone, hd, Bind.bind, Except.bind]
      rw [hR]
      simp [Exec.clone, Exec.bind, Exec.deref, hd]
    | ok v =>
      cases hn : s.heap.new ⟨T, (ops T).copy v⟩ with
      | error e1 =>
        have hR : vtable.clone ops (.vtable_for_type T) s.heap self = .error e1 := by
          simp [vtable.clone, hd, hn, Bind.bind, Except.bind]
        rw [hR]
        simp [Exec.clone, Exec.bind, Exec.deref, Exec.new, hd, hn]
      | ok r =>
        have hR : vtable.clone ops (.vtable_for_type T) s.heap self = .ok r := by
          simp [vtable.clone, hd, hn, Bind.bind, Except.bind]
        rw [hR]
        simp [Exec.clone, Exec.bind, Exec.deref, Exec.new, hd, hn]

/-- Step-by-step copy construction is copy construction, and a throw leaves the state. -/
theorem Exec.copy_ctor_agrees [DecidableEq K] [DecidableEq U] (s : State K U El)
    (this x : K) :
    Exec.copy_ctor ops this x s =
      match Vehicle.copy_ctor ops s this x with
      | .ok s' => (s', .ok ())
      | .error e => (s, .error e) := by
  cases hc : vtable.clone ops (s.obj x).vptr_ s.heap (s.obj x) with
  | error e1 =>
    have hR : Vehicle.copy_ctor ops s this x = .error e1 := by
      simp [Vehicle.copy_ctor, hc, Bind.bind, Except.bind]
    rw [hR]
    simp [Exec.copy_ctor, Exec.bind, Exec.read, Exec.clone_agrees, hc]
  | ok r =>
    have hR : Vehicle.copy_ctor ops s this x = .ok
        { heap := r.1, obj := Function.update s.obj this ⟨r.2, (s.obj x).vptr_⟩ } := by
      simp [Vehicle.copy_ctor, hc, Bind.bind, Except.bind]
    rw [hR]
    simp [Exec.copy_ctor, Exec.bind, Exec.read, Exec.write, Exec.clone_agrees, hc]

/-- Step-by-step move assignment is move assignment; it does not throw. -/
theorem Exec.move_assign_agrees [DecidableEq K] (s : State K U El) (this x : K) :
    Exec.move_assign this x s = (Vehicle.move_assign s this x, .ok ()) := rfl

/-- Destroying a handle with a null payload succeeds and changes nothing. -/
theorem dtor_of_null_body [DecidableEq U] (s : State K U El) (this : K)
    (h : (s.obj this).body_ = 0) : Vehicle.dtor s this = .ok s := by
  cases hv : (s.obj this).vptr_ with
  | null_vtable => simp [Vehicle.dtor, vtable.destroy, Bind.bind, Except.bind, hv]
  | vtable_for_type T => simp [Vehicle.dtor, vtable.destroy, Heap.delete, Bind.bind, Except.bind, hv, h]

/-- Step by step too, destroying a handle with a null payload changes nothing. -/
theorem Exec.dtor_null_body [DecidableEq U] (s : State K U El) (this : K)
    (h : (s.obj this).body_ = 0) : Exec.dtor this s = (s, .ok ()) := by
  cases hv : (s.obj this).vptr_ with
  | null_vtable => simp [Exec.dtor, Exec.bind, Exec.read, Exec.destroy, Exec.pure, hv]
  | vtable_for_type T =>
    simp [Exec.dtor, Exec.bind, Exec.read, Exec.destroy, Exec.delete, Heap.delete, hv, h]

/-- The step-by-step copy assignment is the copy assignment: it returns the same
state when that one returns, and throws the same exception, from the unchanged
state, when that one throws. -/
theorem Exec.copy_assign_agrees [DecidableEq K] [DecidableEq U] (s : State K U El)
    (this x : K) :
    Exec.copy_assign ops this x s =
      match Vehicle.copy_assign ops s this x with
      | .ok s' => (s', .ok ())
      | .error e => (s, .error e) := by
  have hE := Exec.copy_ctor_agrees ops s.enter none (some x)
  cases hc : Vehicle.copy_ctor ops s.enter none (some x) with
  | error e1 =>
    have hc' : Vehicle.copy_ctor ops
        ({ heap := s.heap, obj := fun k => match k with | none => {} | some k => s.obj k } :
          State (Option K) U El) none (some x) = .error e1 := hc
    have hR : Vehicle.copy_assign ops s this x = .error e1 := by
      unfold Vehicle.copy_assign
      dsimp only
      rw [hc']
      rfl
    rw [hR]
    rw [hc] at hE
    simp only [Exec.copy_assign, Exec.bind, hE]
    rfl
  | ok s1 =>
    have hc' : Vehicle.copy_ctor ops
        ({ heap := s.heap, obj := fun k => match k with | none => {} | some k => s.obj k } :
          State (Option K) U El) none (some x) = .ok s1 := hc
    have hb : ((Vehicle.move_assign s1 (some this) none).obj none).body_ = 0 := by
      rw [move_assign_obj_src s1 (some this) none (Option.some_ne_none this)]
    have hR : Vehicle.copy_assign ops s this x =
        .ok (Vehicle.move_assign s1 (some this) none).leave := by
      unfold Vehicle.copy_assign
      dsimp only
      rw [hc']
      simp only [Bind.bind, Except.bind, dtor_of_null_body _ none hb]
      rfl
    rw [hR]
    rw [hc] at hE
    simp only [Exec.copy_assign, Exec.bind, hE, Exec.move_assign_agrees,
      Exec.dtor_null_body _ none hb]

/-- C13: the strong failure guarantee of copy assignment.  Running `d = x` with
the store kept across a throw: if the copy step (the initialiser of `tmp`) throws
`e`, the assignment throws `e` and leaves the very state it started in, so `d`
has the payload and table it had, and so does every other handle and the free
store. -/
theorem C13_copy_assign_strong [DecidableEq K] [DecidableEq U] (s : State K U El) (d x : K)
    (e : Fault) (hfail : (Exec.copy_ctor ops none (some x) s.enter).2 = .error e) :
    Exec.copy_assign ops d x s = (s, .error e) ∧
    (Exec.copy_assign ops d x s).1.obj d = s.obj d ∧
    (Exec.copy_assign ops d x s).1.heap = s.heap ∧
    Vehicle.copy_assign ops s d x = .error e := by
  have h1 : Exec.copy_assign ops d x s = (s, .error e) := by
    unfold Exec.copy_assign
    simp only [Exec.bind, Exec.copy_ctor_throw ops s.enter none (some x) e hfail]
    rfl
  refine ⟨h1, by rw [h1], by rw [h1], ?_⟩
  have h2 := Exec.copy_assign_agrees ops s d x
  rw [h1] at h2
  cases hc : Vehicle.copy_assign ops s d x with
  | error e1 =>
    rw [hc] at h2
    simp only [Prod.mk.injEq, Except.error.injEq] at h2
    rw [h2.2]
  | ok s1 =>
    rw [hc] at h2
    simp at h2

/-- C13 on `v2 = v1` with both handles owning a `Boat` and no memory left: the
copy throws `std::bad_alloc` and the state is the one before. -/
theorem C13_copy_assign_strong_witness :
    Exec.copy_assign Stored.ops 2 1 no_room = (no_room, .error .bad_alloc) ∧
    (Exec.copy_assign Stored.ops 2 1 no_room).1.obj 2 = no_room.obj 2 :=
  ⟨(C13_copy_assign_strong Stored.ops no_room 2 1 .bad_alloc (by rfl)).1,
   (C13_copy_assign_strong Stored.ops no_room 2 1 .bad_alloc (by rfl)).2.1⟩

end
end v3
